import Mathlib

/-!
Verification development for the `elfloader` crate: a shallow embedding of
the ELF-driven load protocol (`src/binary.rs`, `src/lib.rs`) and of the
per-architecture relocation-number tables (`src/arch/x86.rs`,
`src/arch/riscv/mod.rs`, `src/arch/arm/mod.rs`), together with theorems
settling the specification's claims about them.

Machine integers (`u32`, `u64`) are modelled as `Nat`; none of the embedded
code paths rely on wrap-around arithmetic.  Fallible Rust code
(`Result<_, ElfLoaderErr>`) becomes `Except ElfLoaderErr _`.  The byte-level
field decoding performed by the external `xmas-elf` parser is out of scope
for the source repository; its *results* (header fields, section data,
dynamic entries) are therefore carried as data inside the embedded
structures, with fallible accessors (`get_type`, `get_data`, `get_tag`)
stored as `Except` values, exactly as the driver observes them.
-/

set_option maxRecDepth 8192

namespace Elf

/-- Embeds `ElfLoaderErr` from `src/lib.rs`.  `ElfParser { source }` carries a
static message string. -/
inductive ElfLoaderErr where
  | ElfParser (source : String)
  | SymbolTableNotFound
  | UnsupportedElfFormat
  | UnsupportedElfVersion
  | UnsupportedEndianness
  | UnsupportedAbi
  | UnsupportedElfType
  | UnsupportedSectionData
  | UnsupportedRelocationEntry
  deriving DecidableEq, Repr

deriving instance DecidableEq for Except

/-- Embeds `xmas_elf::header::Version` as observed by `is_loadable`: the
driver only distinguishes `Current` from everything else. -/
inductive EVersion where
  | Current
  | Other (n : Nat)
  deriving DecidableEq, Repr

/-- Embeds `xmas_elf::header::Data` (byte order of the file). -/
inductive EData where
  | LittleEndian
  | BigEndian
  | Other (n : Nat)
  deriving DecidableEq, Repr

/-- Embeds `xmas_elf::header::OsAbi` as observed by `is_loadable`. -/
inductive OsAbi where
  | SystemV
  | Linux
  | Other (n : Nat)
  deriving DecidableEq, Repr

/-- Embeds `xmas_elf::header::Type` (the file type, `header.pt2.type_()`). -/
inductive ElfType where
  | FileNone
  | Relocatable
  | Executable
  | SharedObject
  | Core
  | ProcessorSpecific (n : Nat)
  deriving DecidableEq, Repr

/-- Embeds `xmas_elf::program::Type` (program-header type). -/
inductive PType where
  | Null
  | Load
  | Dynamic
  | Interp
  | Note
  | ShLib
  | Phdr
  | Tls
  | GnuRelro
  | OsSpecific (n : Nat)
  | ProcessorSpecific (n : Nat)
  deriving DecidableEq, Repr

/-- Embeds `xmas_elf::dynamic::Tag` restricted to the tags the dynamic-segment
parser distinguishes; every other valid tag is collapsed into `Other`. -/
inductive DynTag where
  | Needed
  | Rela
  | RelaSize
  | Rel
  | RelSize
  | Flags
  | Flags1
  | Other (n : Nat)
  deriving DecidableEq, Repr

/-- One entry of a `.dynamic` segment: the result of `get_tag()` together
with the raw union value returned by `get_val()` / `get_ptr()` (both read the
same `d_un` field in `xmas-elf`). -/
structure DynEntry where
  tag : Except ElfLoaderErr DynTag
  un : Nat
  deriving DecidableEq, Repr

/-- Embeds `xmas_elf::sections::Rela<P64>` (relocation record with addend). -/
structure Rela64 where
  r_offset : Nat
  r_info : Nat
  r_addend : Nat
  deriving DecidableEq, Repr

/-- Embeds `xmas_elf::sections::Rela<P32>`. -/
structure Rela32 where
  r_offset : Nat
  r_info : Nat
  r_addend : Nat
  deriving DecidableEq, Repr

/-- Embeds `xmas_elf::sections::Rel<P32>` (relocation record, no addend). -/
structure Rel32 where
  r_offset : Nat
  r_info : Nat
  deriving DecidableEq, Repr

/-- Embeds `xmas_elf::sections::Rel<P64>`. -/
structure Rel64 where
  r_offset : Nat
  r_info : Nat
  deriving DecidableEq, Repr

/-- Modelled from the spec: `RelaEntry`, the tagged reference to one of the
four underlying ELF relocation-record shapes that `maybe_relocate` in
`src/binary.rs` hands to `ElfLoader::relocate`.  Its definition lives in the
crate root, which is not part of the source snapshot; the spec (section 3)
lists exactly the four shapes, and `src/binary.rs` constructs the
`Rela64`, `Rela32` and `Rel32` variants. -/
inductive RelaEntry where
  | Rel32 (entry : Rel32)
  | Rel64 (entry : Rel64)
  | Rela32 (entry : Rela32)
  | Rela64 (entry : Rela64)
  deriving DecidableEq, Repr

/-- An opaque symbol-table entry (`&dyn Entry`); the driver never inspects
entries in the paths under verification, it only hands them to the callback. -/
structure SymEntry where
  id : Nat
  deriving DecidableEq, Repr

/-- Embeds the cases of `xmas_elf::sections::SectionData` that
`maybe_relocate` and `for_each_symbol` distinguish; every other shape is
collapsed into `OtherData`, which both functions treat through their
fall-through arms. -/
inductive SectionData where
  | Rela64Data (entries : List Rela64)
  | Rela32Data (entries : List Rela32)
  | Rel32Data (entries : List Rel32)
  | Rel64Data (entries : List Rel64)
  | SymbolTable64 (entries : List SymEntry)
  | SymbolTable32 (entries : List SymEntry)
  | Undefined (bytes : List Nat)
  | OtherData
  deriving DecidableEq, Repr

/-- Embeds the cases of `xmas_elf::program::SegmentData` that `parse_dynamic`
distinguishes. -/
inductive SegmentData where
  | Dynamic64 (entries : List DynEntry)
  | Dynamic32 (entries : List DynEntry)
  | OtherSeg
  deriving DecidableEq, Repr

/-- A section header as the driver observes it: the result of `get_name`
(failures modelled as `none`, which `find_section_by_name` skips) and the
result of `get_data(&file)`. -/
structure ElfSection where
  name : Option String
  data : Except ElfLoaderErr SectionData
  deriving DecidableEq, Repr

/-- A program header as the driver observes it, uniformly over `Ph32`/`Ph64`:
the result of `get_type()`, the raw field accessors (`flags`, `virtual_addr`,
`offset`, `file_size`, `mem_size`, `align`, all widened to `Nat`), and the
result of `get_data(&file)` used by `parse_dynamic`. -/
structure ProgramHeader where
  p_type : Except ElfLoaderErr PType
  flags : Nat
  virtual_addr : Nat
  offset : Nat
  file_size : Nat
  mem_size : Nat
  align : Nat
  seg_data : Except ElfLoaderErr SegmentData
  deriving DecidableEq, Repr

/-- Embeds `ProgramHeader::raw_data` (`xmas-elf`):
`&elf_file.input[offset .. offset + file_size]`.  `List.drop`/`List.take`
truncate where the Rust slice indexing would panic; runs touching an
out-of-range segment never complete in the original, so theorems about the
region length carry the in-bounds hypothesis explicitly. -/
def ProgramHeader.raw_data (input : List Nat) (h : ProgramHeader) : List Nat :=
  (input.drop h.offset).take h.file_size

/-- Embeds `xmas_elf::ElfFile` as observed by the driver: the `pt1` fields
tested by `is_loadable`, the file type and entry point from `pt2`, the raw
input bytes, and the two header tables. -/
structure ElfFile where
  version : EVersion
  data : EData
  os_abi : OsAbi
  elftype : ElfType
  entry_point : Nat
  input : List Nat
  phs : List ProgramHeader
  sections : List ElfSection
  deriving DecidableEq, Repr

/-- Embeds `ElfFile::find_section_by_name`: the first section whose name
lookup succeeds and matches. -/
def ElfFile.find_section_by_name (f : ElfFile) (n : String) : Option ElfSection :=
  f.sections.find? (fun s => s.name = some n)

/-- Embeds `DynamicInfo` from `src/lib.rs`.  `flags1` is the raw 64-bit
`DynamicFlags1` bitset (`from_bits_unchecked` preserves every bit, so the
bitset is just the number). -/
structure DynamicInfo where
  flags1 : Nat
  rela : Nat
  rela_size : Nat
  deriving DecidableEq, Repr

/-- `FLAG_1_PIE` (`DF_1_PIE`), the bit tested by `is_pie`. -/
def FLAG_1_PIE : Nat := 0x08000000

/-- Embeds `bitflags`' `contains` on `DynamicFlags1`:
`bits & other.bits == other.bits`. -/
def DynamicFlags1.contains (bits mask : Nat) : Bool :=
  bits &&& mask = mask

/-- Embeds `ElfBinary` from `src/binary.rs`. -/
structure ElfBinary where
  file : ElfFile
  dynamic : Option DynamicInfo
  deriving DecidableEq, Repr

end Elf

namespace Elf.X86

/-- Embeds `RelocationTypes` from `src/arch/x86.rs`. -/
inductive RelocationTypes where
  | R_386_NONE
  | R_386_32
  | R_386_PC32
  | R_386_GOT32
  | R_386_PLT32
  | R_386_COPY
  | R_386_GLOB_DAT
  | R_386_JMP_SLOT
  | R_386_RELATIVE
  | R_386_GOTOFF
  | R_386_GOTPC
  | R_386_32PLT
  | R_386_16
  | R_386_PC16
  | R_386_8
  | R_386_PC8
  | R_386_SIZE32
  | Unknown (n : Nat)
  deriving DecidableEq, Repr

/-- Embeds `RelocationTypes::from` from `src/arch/x86.rs` (the sequential
`match typ` over raw numbers, with the `x => Unknown(x)` fall-through). -/
def RelocationTypes.fromRaw (typ : Nat) : RelocationTypes :=
  match typ with
  | 0 => .R_386_NONE
  | 1 => .R_386_PC32
  | 2 => .R_386_32
  | 3 => .R_386_GOT32
  | 4 => .R_386_PLT32
  | 5 => .R_386_COPY
  | 6 => .R_386_GLOB_DAT
  | 7 => .R_386_JMP_SLOT
  | 8 => .R_386_RELATIVE
  | 9 => .R_386_GOTOFF
  | 10 => .R_386_GOTPC
  | 11 => .R_386_32PLT
  | 20 => .R_386_16
  | 21 => .R_386_PC16
  | 22 => .R_386_8
  | 23 => .R_386_PC8
  | 38 => .R_386_SIZE32
  | x => .Unknown x

end Elf.X86

namespace Elf.RiscV

/-- Embeds `RelocationTypes` from `src/arch/riscv/mod.rs`. -/
inductive RelocationTypes where
  | R_RISCV_NONE
  | R_RISCV_32
  | R_RISCV_64
  | R_RISCV_RELATIVE
  | R_RISCV_COPY
  | R_RISCV_JUMP_SLOT
  | R_RISCV_TLS_DTPMOD32
  | R_RISCV_TLS_DTPMOD64
  | R_RISCV_TLS_DTPREL32
  | R_RISCV_TLS_DTPREL64
  | R_RISCV_TLS_TPREL32
  | R_RISCV_TLS_TPREL64
  | R_RISCV_BRANCH
  | R_RISCV_JAL
  | R_RISCV_CALL
  | R_RISCV_CALL_PLT
  | R_RISCV_GOT_HI20
  | R_RISCV_TLS_GOT_HI20
  | R_RISCV_TLS_GD_HI20
  | R_RISCV_PCREL_HI20
  | R_RISCV_PCREL_LO12_I
  | R_RISCV_PCREL_LO12_S
  | R_RISCV_HI20
  | R_RISCV_LO12_I
  | R_RISCV_LO12_S
  | R_RISCV_TPREL_HI20
  | R_RISCV_TPREL_LO12_I
  | R_RISCV_TPREL_LO12_S
  | R_RISCV_TPREL_ADD
  | R_RISCV_ADD8
  | R_RISCV_ADD16
  | R_RISCV_ADD32
  | R_RISCV_ADD64
  | R_RISCV_SUB8
  | R_RISCV_SUB16
  | R_RISCV_SUB32
  | R_RISCV_SUB64
  | R_RISCV_GNU_VTINHERIT
  | R_RISCV_GNU_VTENTRY
  | R_RISCV_ALIGN
  | R_RISCV_RVC_BRANCH
  | R_RISCV_RVC_JUMP
  | R_RISCV_RVC_LUI
  | R_RISCV_GPREL_I
  | R_RISCV_GPREL_S
  | R_RISCV_TPREL_I
  | R_RISCV_TPREL_S
  | R_RISCV_RELAX
  | R_RISCV_SUB6
  | R_RISCV_SET6
  | R_RISCV_SET8
  | R_RISCV_SET16
  | R_RISCV_SET32
  | Unknown (n : Nat)

/-- Embeds `RelocationTypes::from` from `src/arch/riscv/mod.rs`. -/
def RelocationTypes.fromRaw (typ : Nat) : RelocationTypes :=
  match typ with
  | 0 => .R_RISCV_NONE
  | 1 => .R_RISCV_32
  | 2 => .R_RISCV_64
  | 3 => .R_RISCV_RELATIVE
  | 4 => .R_RISCV_COPY
  | 5 => .R_RISCV_JUMP_SLOT
  | 6 => .R_RISCV_TLS_DTPMOD32
  | 7 => .R_RISCV_TLS_DTPMOD64
  | 8 => .R_RISCV_TLS_DTPREL32
  | 9 => .R_RISCV_TLS_DTPREL64
  | 10 => .R_RISCV_TLS_TPREL32
  | 11 => .R_RISCV_TLS_TPREL64
  | 16 => .R_RISCV_BRANCH
  | 17 => .R_RISCV_JAL
  | 18 => .R_RISCV_CALL
  | 19 => .R_RISCV_CALL_PLT
  | 20 => .R_RISCV_GOT_HI20
  | 21 => .R_RISCV_TLS_GOT_HI20
  | 22 => .R_RISCV_TLS_GD_HI20
  | 23 => .R_RISCV_PCREL_HI20
  | 24 => .R_RISCV_PCREL_LO12_I
  | 25 => .R_RISCV_PCREL_LO12_S
  | 26 => .R_RISCV_HI20
  | 27 => .R_RISCV_LO12_I
  | 28 => .R_RISCV_LO12_S
  | 29 => .R_RISCV_TPREL_HI20
  | 30 => .R_RISCV_TPREL_LO12_I
  | 31 => .R_RISCV_TPREL_LO12_S
  | 32 => .R_RISCV_TPREL_ADD
  | 33 => .R_RISCV_ADD8
  | 34 => .R_RISCV_ADD16
  | 35 => .R_RISCV_ADD32
  | 36 => .R_RISCV_ADD64
  | 37 => .R_RISCV_SUB8
  | 38 => .R_RISCV_SUB16
  | 39 => .R_RISCV_SUB32
  | 40 => .R_RISCV_SUB64
  | 41 => .R_RISCV_GNU_VTINHERIT
  | 42 => .R_RISCV_GNU_VTENTRY
  | 43 => .R_RISCV_ALIGN
  | 44 => .R_RISCV_RVC_BRANCH
  | 45 => .R_RISCV_RVC_JUMP
  | 46 => .R_RISCV_RVC_LUI
  | 47 => .R_RISCV_GPREL_I
  | 48 => .R_RISCV_GPREL_S
  | 49 => .R_RISCV_TPREL_I
  | 50 => .R_RISCV_TPREL_S
  | 51 => .R_RISCV_RELAX
  | 52 => .R_RISCV_SUB6
  | 53 => .R_RISCV_SET6
  | 54 => .R_RISCV_SET8
  | 55 => .R_RISCV_SET16
  | 56 => .R_RISCV_SET32
  | x => .Unknown x

end Elf.RiscV


namespace Elf.Arm

/-- Embeds `RelocationTypes` from `src/arch/arm/mod.rs`. -/
inductive RelocationTypes where
  | R_ARM_NONE
  | R_ARM_PC24
  | R_ARM_ABS32
  | R_ARM_REL32
  | R_ARM_LDR_PC_G0
  | R_ARM_ABS16
  | R_ARM_ABS12
  | R_ARM_THM_ABS5
  | R_ARM_ABS8
  | R_ARM_SBREL32
  | R_ARM_THM_CALL
  | R_ARM_THM_PC8
  | R_ARM_BREL_ADJ
  | R_ARM_TLS_DESC
  | R_ARM_THM_SWI8
  | R_ARM_XPC25
  | R_ARM_THM_XPC22
  | R_ARM_TLS_DTPMOD32
  | R_ARM_TLS_DTPOFF32
  | R_ARM_TLS_TPOFF32
  | R_ARM_COPY
  | R_ARM_GLOB_DAT
  | R_ARM_JUMP_SLOT
  | R_ARM_RELATIVE
  | R_ARM_GOTOFF32
  | R_ARM_BASE_PREL
  | R_ARM_GOT_BREL
  | R_ARM_PLT32
  | R_ARM_CALL
  | R_ARM_JUMP24
  | R_ARM_THM_JUMP24
  | R_ARM_BASE_ABS
  | R_ARM_ALU_PCREL_7_0
  | R_ARM_ALU_PCREL_15_8
  | R_ARM_ALU_PCREL_23_15
  | R_ARM_LDR_SBREL_11_0_NC
  | R_ARM_ALU_SBREL_19_12_NC
  | R_ARM_ALU_SBREL_27_20_CK
  | R_ARM_TARGET1
  | R_ARM_SBREL31
  | R_ARM_V4BX
  | R_ARM_TARGET2
  | R_ARM_PREL31
  | R_ARM_MOVW_ABS_NC
  | R_ARM_MOVT_ABS
  | R_ARM_MOVW_PREL_NC
  | R_ARM_MOVT_PREL
  | R_ARM_THM_MOVW_ABS_NC
  | R_ARM_THM_MOVT_ABS
  | R_ARM_THM_MOVW_PREL_NC
  | R_ARM_THM_MOVT_PREL
  | R_ARM_THM_JUMP19
  | R_ARM_THM_JUMP6
  | R_ARM_THM_ALU_PREL_11_0
  | R_ARM_THM_PC12
  | R_ARM_ABS32_NOI
  | R_ARM_REL32_NOI
  | R_ARM_ALU_PC_G0_NC
  | R_ARM_ALU_PC_G0
  | R_ARM_ALU_PC_G1_NC
  | R_ARM_ALU_PC_G1
  | R_ARM_ALU_PC_G2
  | R_ARM_LDR_PC_G1
  | R_ARM_LDR_PC_G2
  | R_ARM_LDRS_PC_G0
  | R_ARM_LDRS_PC_G1
  | R_ARM_LDRS_PC_G2
  | R_ARM_LDC_PC_G0
  | R_ARM_LDC_PC_G1
  | R_ARM_LDC_PC_G2
  | R_ARM_ALU_SB_G0_NC
  | R_ARM_ALU_SB_G0
  | R_ARM_ALU_SB_G1_NC
  | R_ARM_ALU_SB_G1
  | R_ARM_ALU_SB_G2
  | R_ARM_LDR_SB_G0
  | R_ARM_LDR_SB_G1
  | R_ARM_LDR_SB_G2
  | R_ARM_LDRS_SB_G0
  | R_ARM_LDRS_SB_G1
  | R_ARM_LDRS_SB_G2
  | R_ARM_LDC_SB_G0
  | R_ARM_LDC_SB_G1
  | R_ARM_LDC_SB_G2
  | R_ARM_MOVW_BREL_NC
  | R_ARM_MOVT_BREL
  | R_ARM_MOVW_BREL
  | R_ARM_THM_MOVW_BREL_NC
  | R_ARM_THM_MOVT_BREL
  | R_ARM_THM_MOVW_BREL
  | R_ARM_TLS_GOTDESC
  | R_ARM_TLS_CALL
  | R_ARM_TLS_DESCSEQ
  | R_ARM_THM_TLS_CALL
  | R_ARM_PLT32_ABS
  | R_ARM_GOT_ABS
  | R_ARM_GOT_PREL
  | R_ARM_GOT_BREL12
  | R_ARM_GOTOFF12
  | R_ARM_GOTRELAX
  | R_ARM_GNU_VTENTRY
  | R_ARM_GNU_VTINHERIT
  | R_ARM_THM_JUMP11
  | R_ARM_THM_JUMP8
  | R_ARM_TLS_GD32
  | R_ARM_TLS_LDM32
  | R_ARM_TLS_LDO32
  | R_ARM_TLS_IE32
  | R_ARM_TLS_LE32
  | R_ARM_TLS_LDO12
  | R_ARM_TLS_LE12
  | R_ARM_TLS_IE12GP
  | R_ARM_PRIVATE_0
  | R_ARM_PRIVATE_1
  | R_ARM_PRIVATE_2
  | R_ARM_PRIVATE_3
  | R_ARM_PRIVATE_4
  | R_ARM_PRIVATE_5
  | R_ARM_PRIVATE_6
  | R_ARM_PRIVATE_7
  | R_ARM_PRIVATE_8
  | R_ARM_PRIVATE_9
  | R_ARM_PRIVATE_10
  | R_ARM_PRIVATE_11
  | R_ARM_PRIVATE_12
  | R_ARM_PRIVATE_13
  | R_ARM_PRIVATE_14
  | R_ARM_PRIVATE_15
  | R_ARM_ME_TOO
  | R_ARM_THM_TLS_DESCSEQ16
  | R_ARM_THM_TLS_DESCSEQ32
  | R_ARM_THM_GOT_BREL12
  | R_ARM_THM_ALU_ABS_G0_NC
  | R_ARM_THM_ALU_ABS_G1_NC
  | R_ARM_THM_ALU_ABS_G2_NC
  | R_ARM_THM_ALU_ABS_G3
  | Unknown (n : Nat)

/-- Embeds `RelocationTypes::from` from `src/arch/arm/mod.rs`. -/
def RelocationTypes.fromRaw (typ : Nat) : RelocationTypes :=
  match typ with
  | 0 => .R_ARM_NONE
  | 1 => .R_ARM_PC24
  | 2 => .R_ARM_ABS32
  | 3 => .R_ARM_REL32
  | 4 => .R_ARM_LDR_PC_G0
  | 5 => .R_ARM_ABS16
  | 6 => .R_ARM_ABS12
  | 7 => .R_ARM_THM_ABS5
  | 8 => .R_ARM_ABS8
  | 9 => .R_ARM_SBREL32
  | 10 => .R_ARM_THM_CALL
  | 11 => .R_ARM_THM_PC8
  | 12 => .R_ARM_BREL_ADJ
  | 13 => .R_ARM_TLS_DESC
  | 14 => .R_ARM_THM_SWI8
  | 15 => .R_ARM_XPC25
  | 16 => .R_ARM_THM_XPC22
  | 17 => .R_ARM_TLS_DTPMOD32
  | 18 => .R_ARM_TLS_DTPOFF32
  | 19 => .R_ARM_TLS_TPOFF32
  | 20 => .R_ARM_COPY
  | 21 => .R_ARM_GLOB_DAT
  | 22 => .R_ARM_JUMP_SLOT
  | 23 => .R_ARM_RELATIVE
  | 24 => .R_ARM_GOTOFF32
  | 25 => .R_ARM_BASE_PREL
  | 26 => .R_ARM_GOT_BREL
  | 27 => .R_ARM_PLT32
  | 28 => .R_ARM_CALL
  | 29 => .R_ARM_JUMP24
  | 30 => .R_ARM_THM_JUMP24
  | 31 => .R_ARM_BASE_ABS
  | 32 => .R_ARM_ALU_PCREL_7_0
  | 33 => .R_ARM_ALU_PCREL_15_8
  | 34 => .R_ARM_ALU_PCREL_23_15
  | 35 => .R_ARM_LDR_SBREL_11_0_NC
  | 36 => .R_ARM_ALU_SBREL_19_12_NC
  | 37 => .R_ARM_ALU_SBREL_27_20_CK
  | 38 => .R_ARM_TARGET1
  | 39 => .R_ARM_SBREL31
  | 40 => .R_ARM_V4BX
  | 41 => .R_ARM_TARGET2
  | 42 => .R_ARM_PREL31
  | 43 => .R_ARM_MOVW_ABS_NC
  | 44 => .R_ARM_MOVT_ABS
  | 45 => .R_ARM_MOVW_PREL_NC
  | 46 => .R_ARM_MOVT_PREL
  | 47 => .R_ARM_THM_MOVW_ABS_NC
  | 48 => .R_ARM_THM_MOVT_ABS
  | 49 => .R_ARM_THM_MOVW_PREL_NC
  | 50 => .R_ARM_THM_MOVT_PREL
  | 51 => .R_ARM_THM_JUMP19
  | 52 => .R_ARM_THM_JUMP6
  | 53 => .R_ARM_THM_ALU_PREL_11_0
  | 54 => .R_ARM_THM_PC12
  | 55 => .R_ARM_ABS32_NOI
  | 56 => .R_ARM_REL32_NOI
  | 57 => .R_ARM_ALU_PC_G0_NC
  | 58 => .R_ARM_ALU_PC_G0
  | 59 => .R_ARM_ALU_PC_G1_NC
  | 60 => .R_ARM_ALU_PC_G1
  | 61 => .R_ARM_ALU_PC_G2
  | 62 => .R_ARM_LDR_PC_G1
  | 63 => .R_ARM_LDR_PC_G2
  | 64 => .R_ARM_LDRS_PC_G0
  | 65 => .R_ARM_LDRS_PC_G1
  | 66 => .R_ARM_LDRS_PC_G2
  | 67 => .R_ARM_LDC_PC_G0
  | 68 => .R_ARM_LDC_PC_G1
  | 69 => .R_ARM_LDC_PC_G2
  | 70 => .R_ARM_ALU_SB_G0_NC
  | 71 => .R_ARM_ALU_SB_G0
  | 72 => .R_ARM_ALU_SB_G1_NC
  | 73 => .R_ARM_ALU_SB_G1
  | 74 => .R_ARM_ALU_SB_G2
  | 75 => .R_ARM_LDR_SB_G0
  | 76 => .R_ARM_LDR_SB_G1
  | 77 => .R_ARM_LDR_SB_G2
  | 78 => .R_ARM_LDRS_SB_G0
  | 79 => .R_ARM_LDRS_SB_G1
  | 80 => .R_ARM_LDRS_SB_G2
  | 81 => .R_ARM_LDC_SB_G0
  | 82 => .R_ARM_LDC_SB_G1
  | 83 => .R_ARM_LDC_SB_G2
  | 84 => .R_ARM_MOVW_BREL_NC
  | 85 => .R_ARM_MOVT_BREL
  | 86 => .R_ARM_MOVW_BREL
  | 87 => .R_ARM_THM_MOVW_BREL_NC
  | 88 => .R_ARM_THM_MOVT_BREL
  | 89 => .R_ARM_THM_MOVW_BREL
  | 90 => .R_ARM_TLS_GOTDESC
  | 91 => .R_ARM_TLS_CALL
  | 92 => .R_ARM_TLS_DESCSEQ
  | 93 => .R_ARM_THM_TLS_CALL
  | 94 => .R_ARM_PLT32_ABS
  | 95 => .R_ARM_GOT_ABS
  | 96 => .R_ARM_GOT_PREL
  | 97 => .R_ARM_GOT_BREL12
  | 98 => .R_ARM_GOTOFF12
  | 99 => .R_ARM_GOTRELAX
  | 100 => .R_ARM_GNU_VTENTRY
  | 101 => .R_ARM_GNU_VTINHERIT
  | 102 => .R_ARM_THM_JUMP11
  | 103 => .R_ARM_THM_JUMP8
  | 104 => .R_ARM_TLS_GD32
  | 105 => .R_ARM_TLS_LDM32
  | 106 => .R_ARM_TLS_LDO32
  | 107 => .R_ARM_TLS_IE32
  | 108 => .R_ARM_TLS_LE32
  | 109 => .R_ARM_TLS_LDO12
  | 110 => .R_ARM_TLS_LE12
  | 111 => .R_ARM_TLS_IE12GP
  | 112 => .R_ARM_PRIVATE_0
  | 113 => .R_ARM_PRIVATE_1
  | 114 => .R_ARM_PRIVATE_2
  | 115 => .R_ARM_PRIVATE_3
  | 116 => .R_ARM_PRIVATE_4
  | 117 => .R_ARM_PRIVATE_5
  | 118 => .R_ARM_PRIVATE_6
  | 119 => .R_ARM_PRIVATE_7
  | 120 => .R_ARM_PRIVATE_8
  | 121 => .R_ARM_PRIVATE_9
  | 122 => .R_ARM_PRIVATE_10
  | 123 => .R_ARM_PRIVATE_11
  | 124 => .R_ARM_PRIVATE_12
  | 125 => .R_ARM_PRIVATE_13
  | 126 => .R_ARM_PRIVATE_14
  | 127 => .R_ARM_PRIVATE_15
  | 128 => .R_ARM_ME_TOO
  | 129 => .R_ARM_THM_TLS_DESCSEQ16
  | 130 => .R_ARM_THM_TLS_DESCSEQ32
  | 131 => .R_ARM_THM_GOT_BREL12
  | 132 => .R_ARM_THM_ALU_ABS_G0_NC
  | 133 => .R_ARM_THM_ALU_ABS_G1_NC
  | 134 => .R_ARM_THM_ALU_ABS_G2_NC
  | 135 => .R_ARM_THM_ALU_ABS_G3
  | x => .Unknown x

end Elf.Arm


namespace Elf

/-- Embeds `TypeRela64` from `src/lib.rs` (the x86_64 relocation numbers). -/
inductive TypeRela64 where
  | R_NONE
  | R_64
  | R_PC32
  | R_GOT32
  | R_PLT32
  | R_COPY
  | R_GLOB_DAT
  | R_JMP_SLOT
  | R_RELATIVE
  | R_GOTPCREL
  | R_32
  | R_32S
  | R_16
  | R_PC16
  | R_8
  | R_PC8
  | R_DTPMOD64
  | R_DTPOFF64
  | R_TPOFF64
  | R_TLSGD
  | R_TLSLD
  | R_DTPOFF32
  | R_GOTTPOFF
  | R_TPOFF32
  | Unknown (n : Nat)

/-- Embeds `TypeRela64::from` from `src/lib.rs`. -/
def TypeRela64.fromRaw (typ : Nat) : TypeRela64 :=
  match typ with
  | 0 => .R_NONE
  | 1 => .R_64
  | 2 => .R_PC32
  | 3 => .R_GOT32
  | 4 => .R_PLT32
  | 5 => .R_COPY
  | 6 => .R_GLOB_DAT
  | 7 => .R_JMP_SLOT
  | 8 => .R_RELATIVE
  | 9 => .R_GOTPCREL
  | 10 => .R_32
  | 11 => .R_32S
  | 12 => .R_16
  | 13 => .R_PC16
  | 14 => .R_8
  | 15 => .R_PC8
  | 16 => .R_DTPMOD64
  | 17 => .R_DTPOFF64
  | 18 => .R_TPOFF64
  | 19 => .R_TLSGD
  | 20 => .R_TLSLD
  | 21 => .R_DTPOFF32
  | 22 => .R_GOTTPOFF
  | 23 => .R_TPOFF32
  | x => .Unknown x

end Elf

namespace Elf

/-- Embeds `ElfBinary::is_pie` from `src/binary.rs`. -/
def ElfBinary.is_pie (b : ElfBinary) : Bool :=
  match b.dynamic with
  | none => false
  | some d => DynamicFlags1.contains d.flags1 FLAG_1_PIE

/-- Embeds `ElfBinary::is_loadable` from `src/binary.rs`: the four eligibility
checks, tried in the source's order. -/
def ElfBinary.is_loadable (b : ElfBinary) : Except ElfLoaderErr Unit :=
  if b.file.version ≠ .Current then .error .UnsupportedElfVersion
  else if b.file.data ≠ .LittleEndian then .error .UnsupportedEndianness
  else if ¬(b.file.os_abi = .SystemV ∨ b.file.os_abi = .Linux) then .error .UnsupportedAbi
  else if ¬(b.file.elftype = .Executable ∨ b.file.elftype = .SharedObject) then
    .error .UnsupportedElfType
  else .ok ()

/-- Embeds the `select_load` predicate inside `iter_loadable_headers`
(`src/binary.rs`): `get_type().map(|typ| typ == Type::Load).unwrap_or(false)`. -/
def select_load (h : ProgramHeader) : Bool :=
  match h.p_type with
  | .ok t => t = .Load
  | .error _ => false

/-- Embeds `ElfBinary::iter_loadable_headers`: the filter of the program
headers whose type is `PT_LOAD`, in file order. -/
def ElfBinary.iter_loadable_headers (b : ElfBinary) : List ProgramHeader :=
  b.file.phs.filter select_load

/-- Embeds the `ElfLoader` trait as `src/binary.rs` calls it (the trait
declaration lives in the crate root; its operation names and argument lists
are read off the call sites in `ElfBinary::load` and `maybe_relocate`, and
match the spec's section 4.2).  A loader is a state machine over `σ`; each
fallible method consumes its arguments and the current state. -/
structure ElfLoader (σ : Type) where
  allocate : σ → List ProgramHeader → Except ElfLoaderErr σ
  load : σ → Nat → Nat → List Nat → Except ElfLoaderErr σ
  relocate : σ → RelaEntry → Except ElfLoaderErr σ
  tls : σ → Nat → Nat → Nat → Nat → Except ElfLoaderErr σ
  make_readonly : σ → Nat → Nat → Except ElfLoaderErr σ

/-- One observable loader callback, with its arguments. -/
inductive Event where
  | allocate (load_headers : List ProgramHeader)
  | load (flags : Nat) (base : Nat) (region : List Nat)
  | tls (tdata_start : Nat) (tdata_length : Nat) (total_size : Nat) (align : Nat)
  | relocate (entry : RelaEntry)
  | make_readonly (base : Nat) (size : Nat)
  deriving DecidableEq, Repr

/-- The phase of the load protocol an event belongs to: allocation,
segment copy and TLS, relocation, read-only enforcement. -/
def Event.phase : Event → Nat
  | .allocate _ => 0
  | .load _ _ _ => 1
  | .tls _ _ _ _ => 1
  | .relocate _ => 2
  | .make_readonly _ _ => 3

/-- Routes an event to the loader method it names. -/
def dispatch {σ : Type} (L : ElfLoader σ) (s : σ) : Event → Except ElfLoaderErr σ
  | .allocate hs => L.allocate s hs
  | .load f b r => L.load s f b r
  | .tls a c t al => L.tls s a c t al
  | .relocate e => L.relocate s e
  | .make_readonly b sz => L.make_readonly s b sz

/-- Replays a list of events through the loader, threading the state. -/
def replay {σ : Type} (L : ElfLoader σ) : σ → List Event → Except ElfLoaderErr σ
  | s, [] => .ok s
  | s, e :: rest =>
    match dispatch L s e with
    | .ok s' => replay L s' rest
    | .error err => .error err

/-- Embeds the second phase of `ElfBinary::load` (`src/binary.rs`): walk the
program headers in file order; `PT_LOAD` issues a `load` callback with the
header's flags, virtual address and `raw_data`, `PT_TLS` issues a `tls`
callback, everything else is skipped; `get_type()` failures propagate.
Returns the list of callbacks issued (the failing one included) and the
outcome. -/
def loadTlsLoop {σ : Type} (L : ElfLoader σ) (input : List Nat) :
    σ → List ProgramHeader → List Event × Except ElfLoaderErr σ
  | s, [] => ([], .ok s)
  | s, h :: rest =>
    match h.p_type with
    | .error e => ([], .error e)
    | .ok t =>
      if t = .Load then
        match L.load s h.flags h.virtual_addr (h.raw_data input) with
        | .ok s' =>
          let (tr, r) := loadTlsLoop L input s' rest
          (.load h.flags h.virtual_addr (h.raw_data input) :: tr, r)
        | .error e => ([.load h.flags h.virtual_addr (h.raw_data input)], .error e)
      else if t = .Tls then
        match L.tls s h.virtual_addr h.file_size h.mem_size h.align with
        | .ok s' =>
          let (tr, r) := loadTlsLoop L input s' rest
          (.tls h.virtual_addr h.file_size h.mem_size h.align :: tr, r)
        | .error e => ([.tls h.virtual_addr h.file_size h.mem_size h.align], .error e)
      else loadTlsLoop L input s rest

/-- The relocation-entry loop shared by the three arms of `maybe_relocate`:
one `relocate` callback per entry, in section order. -/
def relocLoop {σ : Type} (L : ElfLoader σ) :
    σ → List RelaEntry → List Event × Except ElfLoaderErr σ
  | s, [] => ([], .ok s)
  | s, e :: rest =>
    match L.relocate s e with
    | .ok s' =>
      let (tr, r) := relocLoop L s' rest
      (.relocate e :: tr, r)
    | .error err => ([.relocate e], .error err)

/-- The relocation section `maybe_relocate` picks:
`find_section_by_name(".rela.dyn").or_else(|| find_section_by_name(".rel.dyn"))`. -/
def relocationSection (f : ElfFile) : Option ElfSection :=
  (f.find_section_by_name ".rela.dyn").orElse
    (fun _ => f.find_section_by_name ".rel.dyn")

/-- The relocation entries a section-data shape yields, tagged as
`maybe_relocate` tags them; `none` for the shapes its fall-through arm
rejects with `UnsupportedSectionData`. -/
def sectionEntries : SectionData → Option (List RelaEntry)
  | .Rela64Data es => some (es.map RelaEntry.Rela64)
  | .Rela32Data es => some (es.map RelaEntry.Rela32)
  | .Rel32Data es => some (es.map RelaEntry.Rel32)
  | _ => none

/-- Embeds `ElfBinary::maybe_relocate` from `src/binary.rs`. -/
def ElfBinary.maybe_relocate {σ : Type} (b : ElfBinary) (L : ElfLoader σ) (s : σ) :
    List Event × Except ElfLoaderErr σ :=
  match relocationSection b.file with
  | none => ([], .ok s)
  | some sec =>
    match sec.data with
    | .error e => ([], .error e)
    | .ok d =>
      match sectionEntries d with
      | some ents => relocLoop L s ents
      | none => ([], .error .UnsupportedSectionData)

/-- Embeds the final phase of `ElfBinary::load`: one `make_readonly`
callback per `PT_GNU_RELRO` header, in file order; `get_type()` failures
propagate. -/
def relroLoop {σ : Type} (L : ElfLoader σ) :
    σ → List ProgramHeader → List Event × Except ElfLoaderErr σ
  | s, [] => ([], .ok s)
  | s, h :: rest =>
    match h.p_type with
    | .error e => ([], .error e)
    | .ok t =>
      if t = .GnuRelro then
        match L.make_readonly s h.virtual_addr h.mem_size with
        | .ok s' =>
          let (tr, r) := relroLoop L s' rest
          (.make_readonly h.virtual_addr h.mem_size :: tr, r)
        | .error e => ([.make_readonly h.virtual_addr h.mem_size], .error e)
      else relroLoop L s rest

/-- Embeds `ElfBinary::load` from `src/binary.rs`: eligibility check, one
`allocate`, the load/TLS walk, `maybe_relocate`, then the RELRO walk.
Returns the callbacks issued, in order, and the outcome. -/
def ElfBinary.load {σ : Type} (b : ElfBinary) (L : ElfLoader σ) (s : σ) :
    List Event × Except ElfLoaderErr σ :=
  match b.is_loadable with
  | .error e => ([], .error e)
  | .ok _ =>
    let hdrs := b.iter_loadable_headers
    match L.allocate s hdrs with
    | .error e => ([.allocate hdrs], .error e)
    | .ok s1 =>
      let (t2, r2) := loadTlsLoop L b.file.input s1 b.file.phs
      match r2 with
      | .error e => (.allocate hdrs :: t2, .error e)
      | .ok s2 =>
        let (t3, r3) := b.maybe_relocate L s2
        match r3 with
        | .error e => (.allocate hdrs :: (t2 ++ t3), .error e)
        | .ok s3 =>
          let (t4, r4) := relroLoop L s3 b.file.phs
          (.allocate hdrs :: (t2 ++ t3 ++ t4), r4)

end Elf

namespace Elf

/-- Embeds the `SegmentData::Dynamic64` loop of `ElfBinary::parse_dynamic`
(`src/binary.rs`): mutable `flags1` / `rela` / `rela_size` threaded through
the walk; `Needed` only logs, `Rela` takes `get_ptr()`, `RelaSize` and
`Flags1` take `get_val()`, every other tag is skipped; `get_tag()` failures
propagate. -/
def dynWalk64 : List DynEntry → Nat → Nat → Nat →
    Except ElfLoaderErr (Nat × Nat × Nat)
  | [], flags1, rela, rela_size => .ok (flags1, rela, rela_size)
  | e :: rest, flags1, rela, rela_size =>
    match e.tag with
    | .error err => .error err
    | .ok .Needed => dynWalk64 rest flags1 rela rela_size
    | .ok .Rela => dynWalk64 rest flags1 e.un rela_size
    | .ok .RelaSize => dynWalk64 rest flags1 rela e.un
    | .ok .Flags1 => dynWalk64 rest e.un rela rela_size
    | .ok _ => dynWalk64 rest flags1 rela rela_size

/-- Embeds the `SegmentData::Dynamic32` loop of `ElfBinary::parse_dynamic`:
identical to the 64-bit walk except that the flags are taken from a
`Tag::Flags` entry (widened to 64 bits), not `Tag::Flags1`. -/
def dynWalk32 : List DynEntry → Nat → Nat → Nat →
    Except ElfLoaderErr (Nat × Nat × Nat)
  | [], flags1, rela, rela_size => .ok (flags1, rela, rela_size)
  | e :: rest, flags1, rela, rela_size =>
    match e.tag with
    | .error err => .error err
    | .ok .Needed => dynWalk32 rest flags1 rela rela_size
    | .ok .Rela => dynWalk32 rest flags1 e.un rela_size
    | .ok .RelaSize => dynWalk32 rest flags1 rela e.un
    | .ok .Flags => dynWalk32 rest e.un rela rela_size
    | .ok _ => dynWalk32 rest flags1 rela rela_size

/-- Embeds `ElfBinary::parse_dynamic` from `src/binary.rs`. -/
def parse_dynamic (dynamic_header : ProgramHeader) :
    Except ElfLoaderErr (Option DynamicInfo) :=
  match dynamic_header.seg_data with
  | .error e => .error e
  | .ok (.Dynamic64 es) =>
    match dynWalk64 es 0 0 0 with
    | .error e => .error e
    | .ok (flags1, rela, rela_size) => .ok (some ⟨flags1, rela, rela_size⟩)
  | .ok (.Dynamic32 es) =>
    match dynWalk32 es 0 0 0 with
    | .error e => .error e
    | .ok (flags1, rela, rela_size) => .ok (some ⟨flags1, rela, rela_size⟩)
  | .ok .OtherSeg => .error .UnsupportedSectionData

/-- The header scan inside `ElfBinary::new`: the first program header whose
`get_type()` is `PT_DYNAMIC`, with `get_type()` failures propagated. -/
def findDynamicHeader : List ProgramHeader →
    Except ElfLoaderErr (Option ProgramHeader)
  | [] => .ok none
  | h :: rest =>
    match h.p_type with
    | .error e => .error e
    | .ok t => if t = .Dynamic then .ok (some h) else findDynamicHeader rest

/-- Embeds `ElfBinary::new` from `src/binary.rs` (file-header decoding is the
external parser's; the scan for the `PT_DYNAMIC` header and the dynamic
parse are the crate's). -/
def ElfBinary.new (file : ElfFile) : Except ElfLoaderErr ElfBinary :=
  match findDynamicHeader file.phs with
  | .error e => .error e
  | .ok none => .ok ⟨file, none⟩
  | .ok (some h) =>
    match parse_dynamic h with
    | .error e => .error e
    | .ok d => .ok ⟨file, d⟩

/-- Embeds `ElfBinary::for_each_symbol` from `src/binary.rs`.  The callback
is infallible in the source (`FnMut(&dyn Entry)`), so the embedding returns
the list of entries handed to it, in table order. -/
def ElfBinary.for_each_symbol (b : ElfBinary) :
    Except ElfLoaderErr (List SymEntry) :=
  match b.file.find_section_by_name ".symtab" with
  | none => .error .SymbolTableNotFound
  | some sec =>
    match sec.data with
    | .error e => .error e
    | .ok (.SymbolTable64 entries) => .ok entries
    | .ok (.SymbolTable32 entries) => .ok entries
    | .ok _ => .error .SymbolTableNotFound

/-- The callback sequence and first internal parse failure of the load/TLS
walk, read off the program headers alone: what the walk issues, and where it
stops, when no callback fails. -/
def loadTlsPure (input : List Nat) : List ProgramHeader → List Event × Option ElfLoaderErr
  | [] => ([], none)
  | h :: rest =>
    match h.p_type with
    | .error e => ([], some e)
    | .ok t =>
      if t = .Load then
        let (tr, r) := loadTlsPure input rest
        (.load h.flags h.virtual_addr (h.raw_data input) :: tr, r)
      else if t = .Tls then
        let (tr, r) := loadTlsPure input rest
        (.tls h.virtual_addr h.file_size h.mem_size h.align :: tr, r)
      else loadTlsPure input rest

/-- The callback sequence and internal failure of the relocation phase, read
off the file alone. -/
def relocPure (f : ElfFile) : List Event × Option ElfLoaderErr :=
  match relocationSection f with
  | none => ([], none)
  | some sec =>
    match sec.data with
    | .error e => ([], some e)
    | .ok d =>
      match sectionEntries d with
      | some ents => (ents.map Event.relocate, none)
      | none => ([], some .UnsupportedSectionData)

/-- The callback sequence and first internal parse failure of the RELRO
phase, read off the header list alone. -/
def relroPure : List ProgramHeader → List Event × Option ElfLoaderErr
  | [] => ([], none)
  | h :: rest =>
    match h.p_type with
    | .error e => ([], some e)
    | .ok t =>
      if t = .GnuRelro then
        let (tr, r) := relroPure rest
        (.make_readonly h.virtual_addr h.mem_size :: tr, r)
      else relroPure rest

/-- The callback sequence of a run of `load` whose loader never fails,
together with the internal error, if any, that stops it: the canonical
behaviour every concrete loader run refines. -/
def pureLoad (b : ElfBinary) : List Event × Option ElfLoaderErr :=
  match b.is_loadable with
  | .error e => ([], some e)
  | .ok _ =>
    let hdrs := b.iter_loadable_headers
    let (t2, r2) := loadTlsPure b.file.input b.file.phs
    match r2 with
    | some e => (.allocate hdrs :: t2, some e)
    | none =>
      let (t3, r3) := relocPure b.file
      match r3 with
      | some e => (.allocate hdrs :: (t2 ++ t3), some e)
      | none =>
        let (t4, r4) := relroPure b.file.phs
        (.allocate hdrs :: (t2 ++ t3 ++ t4), r4)

/-- `u` extends `t`: `t` is an initial segment of `u`. -/
def TraceExtends (u t : List Event) : Prop :=
  ∃ r, u = t ++ r

/-- The loader whose every operation succeeds without observable state: the
canonical environment for exercising the driver. -/
def okLoader : ElfLoader Unit where
  allocate := fun _ _ => .ok ()
  load := fun _ _ _ _ => .ok ()
  relocate := fun _ _ => .ok ()
  tls := fun _ _ _ _ _ => .ok ()
  make_readonly := fun _ _ _ => .ok ()

/-- The base and region length carried by a `load` event. -/
def Event.loadArgs : Event → Option (Nat × Nat)
  | .load _ base region => some (base, region.length)
  | _ => none

end Elf

namespace Elf

theorem replay_append {σ : Type} (L : ElfLoader σ) (s s1 : σ) (t1 t2 : List Event)
    (h1 : replay L s t1 = .ok s1) :
    replay L s (t1 ++ t2) = replay L s1 t2 := by
  induction t1 generalizing s with
  | nil =>
    simp only [replay] at h1
    cases h1
    simp
  | cons e rest ih =>
    simp only [replay] at h1 ⊢
    cases hd : dispatch L s e with
    | ok s' =>
      rw [hd] at h1
      exact ih s' h1
    | error err => rw [hd] at h1; cases h1

theorem replay_single {σ : Type} (L : ElfLoader σ) (s : σ) (e : Event) :
    replay L s [e] = dispatch L s e := by
  simp only [replay]
  cases dispatch L s e <;> simp [replay]

theorem loadTlsLoop_ok {σ : Type} (L : ElfLoader σ) (input : List Nat)
    (phs : List ProgramHeader) (s s' : σ) (tr : List Event)
    (h : loadTlsLoop L input s phs = (tr, .ok s')) :
    loadTlsPure input phs = (tr, none) ∧ replay L s tr = .ok s' := by
  induction phs generalizing s tr with
  | nil =>
    simp only [loadTlsLoop] at h
    cases h
    exact ⟨rfl, rfl⟩
  | cons hd rest ih =>
    simp only [loadTlsLoop] at h
    cases hpt : hd.p_type with
    | error e => rw [hpt] at h; cases h
    | ok t =>
      rw [hpt] at h
      simp only at h
      by_cases h1 : t = .Load
      · subst h1
        rw [if_pos rfl] at h
        cases hc : L.load s hd.flags hd.virtual_addr (hd.raw_data input) with
        | ok s1 =>
          rcases hres : loadTlsLoop L input s1 rest with ⟨tr', r'⟩
          simp only [hc, hres, Prod.mk.injEq] at h
          obtain ⟨rfl, hr⟩ := h
          subst hr
          obtain ⟨he, hrep⟩ := ih s1 tr' hres
          refine ⟨by simp [loadTlsPure, hpt, he], ?_⟩
          simp only [replay, dispatch, hc]
          exact hrep
        | error e =>
          simp [hc] at h
      · by_cases h2 : t = .Tls
        · subst h2
          rw [if_neg h1, if_pos rfl] at h
          cases hc : L.tls s hd.virtual_addr hd.file_size hd.mem_size hd.align with
          | ok s1 =>
            rcases hres : loadTlsLoop L input s1 rest with ⟨tr', r'⟩
            simp only [hc, hres, Prod.mk.injEq] at h
            obtain ⟨rfl, hr⟩ := h
            subst hr
            obtain ⟨he, hrep⟩ := ih s1 tr' hres
            refine ⟨by simp [loadTlsPure, hpt, h1, he], ?_⟩
            simp only [replay, dispatch, hc]
            exact hrep
          | error e =>
            simp [hc] at h
        · rw [if_neg h1, if_neg h2] at h
          obtain ⟨he, hrep⟩ := ih s tr h
          refine ⟨by simp [loadTlsPure, hpt, h1, h2, he], hrep⟩

end Elf
namespace Elf

theorem loadTlsLoop_le {σ : Type} (L : ElfLoader σ) (input : List Nat)
    (phs : List ProgramHeader) (s : σ) :
    ∃ r, (loadTlsPure input phs).1 = (loadTlsLoop L input s phs).1 ++ r := by
  induction phs generalizing s with
  | nil => exact ⟨[], rfl⟩
  | cons hd rest ih =>
    cases hpt : hd.p_type with
    | error e => exact ⟨(loadTlsPure input (hd :: rest)).1, by simp [loadTlsLoop, hpt]⟩
    | ok t =>
      by_cases h1 : t = .Load
      · subst h1
        cases hc : L.load s hd.flags hd.virtual_addr (hd.raw_data input) with
        | ok s1 =>
          obtain ⟨r, hr⟩ := ih s1
          exact ⟨r, by simp [loadTlsLoop, loadTlsPure, hpt, hc, hr]⟩
        | error e =>
          exact ⟨(loadTlsPure input rest).1, by simp [loadTlsLoop, loadTlsPure, hpt, hc]⟩
      · by_cases h2 : t = .Tls
        · subst h2
          cases hc : L.tls s hd.virtual_addr hd.file_size hd.mem_size hd.align with
          | ok s1 =>
            obtain ⟨r, hr⟩ := ih s1
            exact ⟨r, by simp [loadTlsLoop, loadTlsPure, hpt, h1, hc, hr]⟩
          | error e =>
            exact ⟨(loadTlsPure input rest).1, by simp [loadTlsLoop, loadTlsPure, hpt, h1, hc]⟩
        · obtain ⟨r, hr⟩ := ih s
          exact ⟨r, by simp [loadTlsLoop, loadTlsPure, hpt, h1, h2, hr]⟩

theorem loadTlsLoop_error {σ : Type} (L : ElfLoader σ) (input : List Nat)
    (phs : List ProgramHeader) (s : σ) (tr : List Event) (e : ElfLoaderErr)
    (h : loadTlsLoop L input s phs = (tr, .error e)) :
    (∃ tr₀ ev s', tr = tr₀ ++ [ev] ∧ replay L s tr₀ = .ok s' ∧ dispatch L s' ev = .error e)
    ∨ ((∃ s', replay L s tr = .ok s') ∧ loadTlsPure input phs = (tr, some e)) := by
  induction phs generalizing s tr with
  | nil => simp [loadTlsLoop] at h
  | cons hd rest ih =>
    simp only [loadTlsLoop] at h
    cases hpt : hd.p_type with
    | error e0 =>
      rw [hpt] at h
      simp only [Prod.mk.injEq] at h
      obtain ⟨rfl, he⟩ := h
      cases he
      exact .inr ⟨⟨s, rfl⟩, by simp [loadTlsPure, hpt]⟩
    | ok t =>
      rw [hpt] at h
      simp only at h
      by_cases h1 : t = .Load
      · subst h1
        rw [if_pos rfl] at h
        cases hc : L.load s hd.flags hd.virtual_addr (hd.raw_data input) with
        | ok s1 =>
          rcases hres : loadTlsLoop L input s1 rest with ⟨tr', r'⟩
          simp only [hc, hres, Prod.mk.injEq] at h
          obtain ⟨rfl, hr⟩ := h
          subst hr
          rcases ih s1 tr' hres with ⟨tr₀, ev, s'', h3, h4, h5⟩ | ⟨⟨s'', h3⟩, h4⟩
          · refine .inl ⟨.load hd.flags hd.virtual_addr (hd.raw_data input) :: tr₀, ev, s'', by simp [h3], ?_, h5⟩
            simp only [replay, dispatch, hc]
            exact h4
          · refine .inr ⟨⟨s'', ?_⟩, by simp [loadTlsPure, hpt, h4]⟩
            simp only [replay, dispatch, hc]
            exact h3
        | error e0 =>
          simp only [hc, Prod.mk.injEq] at h
          obtain ⟨rfl, he⟩ := h
          cases he
          exact .inl ⟨[], .load hd.flags hd.virtual_addr (hd.raw_data input), s, by simp, rfl, by simp [dispatch, hc]⟩
      · by_cases h2 : t = .Tls
        · subst h2
          rw [if_neg h1, if_pos rfl] at h
          cases hc : L.tls s hd.virtual_addr hd.file_size hd.mem_size hd.align with
          | ok s1 =>
            rcases hres : loadTlsLoop L input s1 rest with ⟨tr', r'⟩
            simp only [hc, hres, Prod.mk.injEq] at h
            obtain ⟨rfl, hr⟩ := h
            subst hr
            rcases ih s1 tr' hres with ⟨tr₀, ev, s'', h3, h4, h5⟩ | ⟨⟨s'', h3⟩, h4⟩
            · refine .inl ⟨.tls hd.virtual_addr hd.file_size hd.mem_size hd.align :: tr₀, ev, s'', by simp [h3], ?_, h5⟩
              simp only [replay, dispatch, hc]
              exact h4
            · refine .inr ⟨⟨s'', ?_⟩, by simp [loadTlsPure, hpt, h1, h4]⟩
              simp only [replay, dispatch, hc]
              exact h3
          | error e0 =>
            simp only [hc, Prod.mk.injEq] at h
            obtain ⟨rfl, he⟩ := h
            cases he
            exact .inl ⟨[], .tls hd.virtual_addr hd.file_size hd.mem_size hd.align, s, by simp, rfl, by simp [dispatch, hc]⟩
        · rw [if_neg h1, if_neg h2] at h
          rcases ih s tr h with h3 | ⟨h3, h4⟩
          · exact .inl h3
          · exact .inr ⟨h3, by simp [loadTlsPure, hpt, h1, h2, h4]⟩

end Elf
namespace Elf

theorem relocLoop_ok {σ : Type} (L : ElfLoader σ) (ents : List RelaEntry)
    (s s' : σ) (tr : List Event)
    (h : relocLoop L s ents = (tr, .ok s')) :
    tr = ents.map Event.relocate ∧ replay L s tr = .ok s' := by
  induction ents generalizing s tr with
  | nil =>
    simp only [relocLoop] at h
    cases h
    exact ⟨rfl, rfl⟩
  | cons hd rest ih =>
    simp only [relocLoop] at h
    cases hc : L.relocate s hd with
    | ok s1 =>
      rcases hres : relocLoop L s1 rest with ⟨tr', r'⟩
      simp only [hc, hres, Prod.mk.injEq] at h
      obtain ⟨rfl, hr⟩ := h
      subst hr
      obtain ⟨he, hrep⟩ := ih s1 tr' hres
      refine ⟨by simp [he], ?_⟩
      simp only [replay, dispatch, hc]
      exact hrep
    | error e =>
      simp [hc] at h

theorem relocLoop_le {σ : Type} (L : ElfLoader σ) (ents : List RelaEntry) (s : σ) :
    ∃ r, ents.map Event.relocate = (relocLoop L s ents).1 ++ r := by
  induction ents generalizing s with
  | nil => exact ⟨[], rfl⟩
  | cons hd rest ih =>
    cases hc : L.relocate s hd with
    | ok s1 =>
      obtain ⟨r, hr⟩ := ih s1
      exact ⟨r, by simp [relocLoop, hc, hr]⟩
    | error e =>
      exact ⟨rest.map Event.relocate, by simp [relocLoop, hc]⟩

theorem relocLoop_error {σ : Type} (L : ElfLoader σ) (ents : List RelaEntry)
    (s : σ) (tr : List Event) (e : ElfLoaderErr)
    (h : relocLoop L s ents = (tr, .error e)) :
    ∃ tr₀ ev s', tr = tr₀ ++ [ev] ∧ replay L s tr₀ = .ok s' ∧
      dispatch L s' ev = .error e := by
  induction ents generalizing s tr with
  | nil => simp [relocLoop] at h
  | cons hd rest ih =>
    simp only [relocLoop] at h
    cases hc : L.relocate s hd with
    | ok s1 =>
      rcases hres : relocLoop L s1 rest with ⟨tr', r'⟩
      simp only [hc, hres, Prod.mk.injEq] at h
      obtain ⟨rfl, hr⟩ := h
      subst hr
      obtain ⟨tr₀, ev, s'', h3, h4, h5⟩ := ih s1 tr' hres
      refine ⟨.relocate hd :: tr₀, ev, s'', by simp [h3], ?_, h5⟩
      simp only [replay, dispatch, hc]
      exact h4
    | error e0 =>
      simp only [hc, Prod.mk.injEq] at h
      obtain ⟨rfl, he⟩ := h
      cases he
      exact ⟨[], .relocate hd, s, by simp, rfl, by simp [dispatch, hc]⟩

theorem maybe_relocate_ok {σ : Type} (L : ElfLoader σ) (b : ElfBinary)
    (s s' : σ) (tr : List Event)
    (h : b.maybe_relocate L s = (tr, .ok s')) :
    relocPure b.file = (tr, none) ∧ replay L s tr = .ok s' := by
  unfold ElfBinary.maybe_relocate at h
  unfold relocPure
  cases hsec : relocationSection b.file with
  | none =>
    simp only [hsec] at h ⊢
    cases h
    exact ⟨rfl, rfl⟩
  | some sec =>
    simp only [hsec] at h ⊢
    cases hd : sec.data with
    | error e => simp [hd] at h
    | ok d =>
      simp only [hd] at h ⊢
      cases hents : sectionEntries d with
      | none => simp [hents] at h
      | some ents =>
        simp only [hents] at h ⊢
        obtain ⟨he, hrep⟩ := relocLoop_ok L ents s s' tr h
        exact ⟨by simp [he], hrep⟩

theorem maybe_relocate_le {σ : Type} (L : ElfLoader σ) (b : ElfBinary) (s : σ) :
    ∃ r, (relocPure b.file).1 = (b.maybe_relocate L s).1 ++ r := by
  unfold ElfBinary.maybe_relocate relocPure
  cases hsec : relocationSection b.file with
  | none => simp
  | some sec =>
    simp only
    cases hd : sec.data with
    | error e => simp
    | ok d =>
      simp only
      cases hents : sectionEntries d with
      | none => simp
      | some ents => simpa using relocLoop_le L ents s

theorem maybe_relocate_error {σ : Type} (L : ElfLoader σ) (b : ElfBinary)
    (s : σ) (tr : List Event) (e : ElfLoaderErr)
    (h : b.maybe_relocate L s = (tr, .error e)) :
    (∃ tr₀ ev s', tr = tr₀ ++ [ev] ∧ replay L s tr₀ = .ok s' ∧
      dispatch L s' ev = .error e)
    ∨ ((∃ s', replay L s tr = .ok s') ∧ relocPure b.file = (tr, some e)) := by
  unfold ElfBinary.maybe_relocate at h
  unfold relocPure
  cases hsec : relocationSection b.file with
  | none => simp [hsec] at h
  | some sec =>
    simp only [hsec] at h ⊢
    cases hd : sec.data with
    | error e0 =>
      simp only [hd, Prod.mk.injEq] at h ⊢
      obtain ⟨rfl, he⟩ := h
      cases he
      exact .inr ⟨⟨s, rfl⟩, rfl, rfl⟩
    | ok d =>
      simp only [hd] at h ⊢
      cases hents : sectionEntries d with
      | none =>
        simp only [hents, Prod.mk.injEq] at h ⊢
        obtain ⟨rfl, he⟩ := h
        cases he
        exact .inr ⟨⟨s, rfl⟩, rfl, rfl⟩
      | some ents =>
        simp only [hents] at h ⊢
        exact .inl (relocLoop_error L ents s tr e h)

end Elf
namespace Elf

theorem relroLoop_ok {σ : Type} (L : ElfLoader σ)
    (phs : List ProgramHeader) (s s' : σ) (tr : List Event)
    (h : relroLoop L s phs = (tr, .ok s')) :
    relroPure phs = (tr, none) ∧ replay L s tr = .ok s' := by
  induction phs generalizing s tr with
  | nil =>
    simp only [relroLoop] at h
    cases h
    exact ⟨rfl, rfl⟩
  | cons hd rest ih =>
    simp only [relroLoop] at h
    cases hpt : hd.p_type with
    | error e => rw [hpt] at h; cases h
    | ok t =>
      rw [hpt] at h
      simp only at h
      by_cases h1 : t = .GnuRelro
      · subst h1
        rw [if_pos rfl] at h
        cases hc : L.make_readonly s hd.virtual_addr hd.mem_size with
        | ok s1 =>
          rcases hres : relroLoop L s1 rest with ⟨tr', r'⟩
          simp only [hc, hres, Prod.mk.injEq] at h
          obtain ⟨rfl, hr⟩ := h
          subst hr
          obtain ⟨he, hrep⟩ := ih s1 tr' hres
          refine ⟨by simp [relroPure, hpt, he], ?_⟩
          simp only [replay, dispatch, hc]
          exact hrep
        | error e =>
          simp [hc] at h
      · rw [if_neg h1] at h
        obtain ⟨he, hrep⟩ := ih s tr h
        exact ⟨by simp [relroPure, hpt, h1, he], hrep⟩

theorem relroLoop_le {σ : Type} (L : ElfLoader σ)
    (phs : List ProgramHeader) (s : σ) :
    ∃ r, (relroPure phs).1 = (relroLoop L s phs).1 ++ r := by
  induction phs generalizing s with
  | nil => exact ⟨[], rfl⟩
  | cons hd rest ih =>
    cases hpt : hd.p_type with
    | error e => exact ⟨(relroPure (hd :: rest)).1, by simp [relroLoop, hpt]⟩
    | ok t =>
      by_cases h1 : t = .GnuRelro
      · subst h1
        cases hc : L.make_readonly s hd.virtual_addr hd.mem_size with
        | ok s1 =>
          obtain ⟨r, hr⟩ := ih s1
          exact ⟨r, by simp [relroLoop, relroPure, hpt, hc, hr]⟩
        | error e =>
          exact ⟨(relroPure rest).1, by simp [relroLoop, relroPure, hpt, hc]⟩
      · obtain ⟨r, hr⟩ := ih s
        exact ⟨r, by simp [relroLoop, relroPure, hpt, h1, hr]⟩

theorem relroLoop_error {σ : Type} (L : ElfLoader σ)
    (phs : List ProgramHeader) (s : σ) (tr : List Event) (e : ElfLoaderErr)
    (h : relroLoop L s phs = (tr, .error e)) :
    (∃ tr₀ ev s', tr = tr₀ ++ [ev] ∧ replay L s tr₀ = .ok s' ∧
      dispatch L s' ev = .error e)
    ∨ ((∃ s', replay L s tr = .ok s') ∧ relroPure phs = (tr, some e)) := by
  induction phs generalizing s tr with
  | nil => simp [relroLoop] at h
  | cons hd rest ih =>
    simp only [relroLoop] at h
    cases hpt : hd.p_type with
    | error e0 =>
      rw [hpt] at h
      simp only [Prod.mk.injEq] at h
      obtain ⟨rfl, he⟩ := h
      cases he
      exact .inr ⟨⟨s, rfl⟩, by simp [relroPure, hpt]⟩
    | ok t =>
      rw [hpt] at h
      simp only at h
      by_cases h1 : t = .GnuRelro
      · subst h1
        rw [if_pos rfl] at h
        cases hc : L.make_readonly s hd.virtual_addr hd.mem_size with
        | ok s1 =>
          rcases hres : relroLoop L s1 rest with ⟨tr', r'⟩
          simp only [hc, hres, Prod.mk.injEq] at h
          obtain ⟨rfl, hr⟩ := h
          subst hr
          rcases ih s1 tr' hres with ⟨tr₀, ev, s'', h3, h4, h5⟩ | ⟨⟨s'', h3⟩, h4⟩
          · refine .inl ⟨.make_readonly hd.virtual_addr hd.mem_size :: tr₀, ev, s'', by simp [h3], ?_, h5⟩
            simp only [replay, dispatch, hc]
            exact h4
          · refine .inr ⟨⟨s'', ?_⟩, by simp [relroPure, hpt, h4]⟩
            simp only [replay, dispatch, hc]
            exact h3
        | error e0 =>
          simp only [hc, Prod.mk.injEq] at h
          obtain ⟨rfl, he⟩ := h
          cases he
          exact .inl ⟨[], .make_readonly hd.virtual_addr hd.mem_size, s, by simp, rfl, by simp [dispatch, hc]⟩
      · rw [if_neg h1] at h
        rcases ih s tr h with h3 | ⟨h3, h4⟩
        · exact .inl h3
        · exact .inr ⟨h3, by simp [relroPure, hpt, h1, h4]⟩

end Elf
namespace Elf

theorem load_ok {σ : Type} (L : ElfLoader σ) (b : ElfBinary) (s s' : σ)
    (tr : List Event) (h : b.load L s = (tr, .ok s')) :
    pureLoad b = (tr, none) ∧ replay L s tr = .ok s' := by
  unfold ElfBinary.load at h
  unfold pureLoad
  cases hel : b.is_loadable with
  | error e => simp [hel] at h
  | ok u =>
    simp only [hel] at h ⊢
    cases ha : L.allocate s b.iter_loadable_headers with
    | error e => simp [ha] at h
    | ok s1 =>
      simp only [ha] at h
      rcases h2 : loadTlsLoop L b.file.input s1 b.file.phs with ⟨t2, r2⟩
      simp only [h2] at h
      cases r2 with
      | error e => simp at h
      | ok s2 =>
        simp only at h
        rcases h3 : b.maybe_relocate L s2 with ⟨t3, r3⟩
        simp only [h3] at h
        cases r3 with
        | error e => simp at h
        | ok s3 =>
          simp only at h
          rcases h4 : relroLoop L s3 b.file.phs with ⟨t4, r4⟩
          simp only [h4, Prod.mk.injEq] at h
          obtain ⟨rfl, hr4⟩ := h
          subst hr4
          obtain ⟨hp2, hrep2⟩ := loadTlsLoop_ok L b.file.input b.file.phs s1 s2 t2 h2
          obtain ⟨hp3, hrep3⟩ := maybe_relocate_ok L b s2 s3 t3 h3
          obtain ⟨hp4, hrep4⟩ := relroLoop_ok L b.file.phs s3 s' t4 h4
          refine ⟨by simp [hp2, hp3, hp4], ?_⟩
          simp only [replay, dispatch, ha]
          rw [show t2 ++ t3 ++ t4 = t2 ++ (t3 ++ t4) by simp,
            replay_append L s1 s2 t2 (t3 ++ t4) hrep2,
            replay_append L s2 s3 t3 t4 hrep3]
          exact hrep4

theorem load_le {σ : Type} (L : ElfLoader σ) (b : ElfBinary) (s : σ) :
    ∃ r, (pureLoad b).1 = (b.load L s).1 ++ r := by
  unfold ElfBinary.load pureLoad
  cases hel : b.is_loadable with
  | error e => simp
  | ok u =>
    simp only
    cases ha : L.allocate s b.iter_loadable_headers with
    | error e =>
      rcases hp2 : loadTlsPure b.file.input b.file.phs with ⟨t2p, r2p⟩
      simp only [hp2]
      cases r2p with
      | some e2 => exact ⟨t2p, by simp⟩
      | none =>
        rcases hp3 : relocPure b.file with ⟨t3p, r3p⟩
        simp only [hp3]
        cases r3p with
        | some e3 => exact ⟨t2p ++ t3p, by simp⟩
        | none => exact ⟨t2p ++ t3p ++ (relroPure b.file.phs).1, by simp⟩
    | ok s1 =>
      simp only
      rcases h2 : loadTlsLoop L b.file.input s1 b.file.phs with ⟨t2, r2⟩
      simp only [h2]
      cases r2 with
      | error e2 =>
        obtain ⟨w2, hw2⟩ := loadTlsLoop_le L b.file.input b.file.phs s1
        rw [h2] at hw2
        rcases hp2 : loadTlsPure b.file.input b.file.phs with ⟨t2p, r2p⟩
        rw [hp2] at hw2
        simp only [hp2]
        cases r2p with
        | some e2p => exact ⟨w2, by simpa using hw2⟩
        | none =>
          rcases hp3 : relocPure b.file with ⟨t3p, r3p⟩
          simp only [hp3]
          cases r3p with
          | some e3 => exact ⟨w2 ++ t3p, by simp at hw2; simp [hw2]⟩
          | none =>
            exact ⟨w2 ++ t3p ++ (relroPure b.file.phs).1, by simp at hw2; simp [hw2]⟩
      | ok s2 =>
        simp only
        obtain ⟨hp2, _⟩ := loadTlsLoop_ok L b.file.input b.file.phs s1 s2 t2 h2
        simp only [hp2]
        rcases h3 : b.maybe_relocate L s2 with ⟨t3, r3⟩
        simp only [h3]
        cases r3 with
        | error e3 =>
          obtain ⟨w3, hw3⟩ := maybe_relocate_le L b s2
          rw [h3] at hw3
          rcases hp3 : relocPure b.file with ⟨t3p, r3p⟩
          rw [hp3] at hw3
          simp only [hp3]
          cases r3p with
          | some e3p => exact ⟨w3, by simp at hw3; simp [hw3]⟩
          | none =>
            exact ⟨w3 ++ (relroPure b.file.phs).1, by simp at hw3; simp [hw3]⟩
        | ok s3 =>
          simp only
          obtain ⟨hp3, _⟩ := maybe_relocate_ok L b s2 s3 t3 h3
          simp only [hp3]
          rcases h4 : relroLoop L s3 b.file.phs with ⟨t4, r4⟩
          simp only [h4]
          obtain ⟨w4, hw4⟩ := relroLoop_le L b.file.phs s3
          rw [h4] at hw4
          exact ⟨w4, by simp [hw4]⟩

end Elf
namespace Elf

theorem load_error {σ : Type} (L : ElfLoader σ) (b : ElfBinary) (s : σ)
    (tr : List Event) (e : ElfLoaderErr)
    (h : b.load L s = (tr, .error e)) :
    (∃ tr₀ ev s', tr = tr₀ ++ [ev] ∧ replay L s tr₀ = .ok s' ∧
      dispatch L s' ev = .error e)
    ∨ ((∃ s', replay L s tr = .ok s') ∧ pureLoad b = (tr, some e)) := by
  unfold ElfBinary.load at h
  unfold pureLoad
  cases hel : b.is_loadable with
  | error e0 =>
    simp only [hel, Prod.mk.injEq] at h ⊢
    obtain ⟨rfl, he⟩ := h
    cases he
    exact .inr ⟨⟨s, rfl⟩, rfl, rfl⟩
  | ok u =>
    simp only [hel] at h ⊢
    cases ha : L.allocate s b.iter_loadable_headers with
    | error e0 =>
      simp only [ha, Prod.mk.injEq] at h
      obtain ⟨rfl, he⟩ := h
      cases he
      exact .inl ⟨[], .allocate b.iter_loadable_headers, s, by simp, rfl,
        by simp [dispatch, ha]⟩
    | ok s1 =>
      simp only [ha] at h
      rcases h2 : loadTlsLoop L b.file.input s1 b.file.phs with ⟨t2, r2⟩
      simp only [h2] at h
      cases r2 with
      | error e2 =>
        simp only [Prod.mk.injEq] at h
        obtain ⟨rfl, he⟩ := h
        cases he
        rcases loadTlsLoop_error L b.file.input b.file.phs s1 t2 e h2 with
          ⟨tr₀, ev, s'', h3, h4, h5⟩ | ⟨⟨s'', h3⟩, h4⟩
        · refine .inl ⟨.allocate b.iter_loadable_headers :: tr₀, ev, s'', by simp [h3], ?_, h5⟩
          simp only [replay, dispatch, ha]
          exact h4
        · refine .inr ⟨⟨s'', ?_⟩, by simp [h4]⟩
          simp only [replay, dispatch, ha]
          exact h3
      | ok s2 =>
        simp only at h
        obtain ⟨hp2, hrep2⟩ := loadTlsLoop_ok L b.file.input b.file.phs s1 s2 t2 h2
        rcases h3 : b.maybe_relocate L s2 with ⟨t3, r3⟩
        simp only [h3] at h
        cases r3 with
        | error e3 =>
          simp only [Prod.mk.injEq] at h
          obtain ⟨rfl, he⟩ := h
          cases he
          rcases maybe_relocate_error L b s2 t3 e h3 with
            ⟨tr₀, ev, s'', h5, h6, h7⟩ | ⟨⟨s'', h5⟩, h6⟩
          · refine .inl ⟨.allocate b.iter_loadable_headers :: (t2 ++ tr₀), ev, s'',
              by simp [h5], ?_, h7⟩
            simp only [replay, dispatch, ha]
            rw [replay_append L s1 s2 t2 tr₀ hrep2]
            exact h6
          · refine .inr ⟨⟨s'', ?_⟩, by simp [hp2, h6]⟩
            simp only [replay, dispatch, ha]
            rw [replay_append L s1 s2 t2 t3 hrep2]
            exact h5
        | ok s3 =>
          simp only at h
          obtain ⟨hp3, hrep3⟩ := maybe_relocate_ok L b s2 s3 t3 h3
          rcases h4 : relroLoop L s3 b.file.phs with ⟨t4, r4⟩
          simp only [h4, Prod.mk.injEq] at h
          obtain ⟨rfl, he⟩ := h
          subst he
          rcases relroLoop_error L b.file.phs s3 t4 e h4 with
            ⟨tr₀, ev, s'', h5, h6, h7⟩ | ⟨⟨s'', h5⟩, h6⟩
          · refine .inl ⟨.allocate b.iter_loadable_headers :: (t2 ++ t3 ++ tr₀), ev, s'',
              by simp [h5], ?_, h7⟩
            simp only [replay, dispatch, ha]
            rw [show t2 ++ t3 ++ tr₀ = t2 ++ (t3 ++ tr₀) by simp,
              replay_append L s1 s2 t2 (t3 ++ tr₀) hrep2,
              replay_append L s2 s3 t3 tr₀ hrep3]
            exact h6
          · refine .inr ⟨⟨s'', ?_⟩, by simp [hp2, hp3, h6]⟩
            simp only [replay, dispatch, ha]
            rw [show t2 ++ t3 ++ t4 = t2 ++ (t3 ++ t4) by simp,
              replay_append L s1 s2 t2 (t3 ++ t4) hrep2,
              replay_append L s2 s3 t3 t4 hrep3]
            exact h5

end Elf
namespace Elf

theorem loadTlsPure_phase (input : List Nat) (phs : List ProgramHeader) :
    ∀ ev ∈ (loadTlsPure input phs).1, ev.phase = 1 := by
  induction phs with
  | nil => simp [loadTlsPure]
  | cons hd rest ih =>
    intro ev hev
    cases hpt : hd.p_type with
    | error e => simp [loadTlsPure, hpt] at hev
    | ok t =>
      by_cases h1 : t = .Load
      · subst h1
        simp [loadTlsPure, hpt] at hev
        rcases hev with rfl | hev
        · rfl
        · exact ih ev hev
      · by_cases h2 : t = .Tls
        · subst h2
          simp [loadTlsPure, hpt, h1] at hev
          rcases hev with rfl | hev
          · rfl
          · exact ih ev hev
        · simp only [loadTlsPure, hpt, if_neg h1, if_neg h2] at hev
          exact ih ev hev

theorem relocPure_phase (f : ElfFile) :
    ∀ ev ∈ (relocPure f).1, ev.phase = 2 := by
  unfold relocPure
  cases hsec : relocationSection f with
  | none => simp
  | some sec =>
    simp only
    cases hd : sec.data with
    | error e => simp
    | ok d =>
      simp only
      cases hents : sectionEntries d with
      | none => simp
      | some ents =>
        simp only
        intro ev hev
        simp only [List.mem_map] at hev
        obtain ⟨en, _, rfl⟩ := hev
        rfl

theorem relroPure_phase (phs : List ProgramHeader) :
    ∀ ev ∈ (relroPure phs).1, ev.phase = 3 := by
  induction phs with
  | nil => simp [relroPure]
  | cons hd rest ih =>
    intro ev hev
    cases hpt : hd.p_type with
    | error e => simp [relroPure, hpt] at hev
    | ok t =>
      by_cases h1 : t = .GnuRelro
      · subst h1
        simp [relroPure, hpt] at hev
        rcases hev with rfl | hev
        · rfl
        · exact ih ev hev
      · simp only [relroPure, hpt, if_neg h1] at hev
        exact ih ev hev

theorem pureLoad_none (b : ElfBinary) (tr : List Event)
    (h : pureLoad b = (tr, none)) :
    tr = .allocate b.iter_loadable_headers ::
      ((loadTlsPure b.file.input b.file.phs).1 ++ (relocPure b.file).1 ++
        (relroPure b.file.phs).1)
    ∧ (loadTlsPure b.file.input b.file.phs).2 = none
    ∧ (relocPure b.file).2 = none
    ∧ (relroPure b.file.phs).2 = none := by
  unfold pureLoad at h
  cases hel : b.is_loadable with
  | error e => simp [hel] at h
  | ok u =>
    simp only [hel] at h
    rcases hp2 : loadTlsPure b.file.input b.file.phs with ⟨t2p, r2p⟩
    simp only [hp2] at h
    cases r2p with
    | some e => simp at h
    | none =>
      simp only at h
      rcases hp3 : relocPure b.file with ⟨t3p, r3p⟩
      simp only [hp3] at h
      cases r3p with
      | some e => simp at h
      | none =>
        simp only at h
        rcases hp4 : relroPure b.file.phs with ⟨t4p, r4p⟩
        simp only [hp4, Prod.mk.injEq] at h
        obtain ⟨rfl, hr4⟩ := h
        simp [hp2, hp3, hp4, hr4]

/-- C1: for every `ElfBinary` and every loader, a successful run of
`binary.load(loader)` invokes the callbacks in exactly the order: one
`allocate`, then all `load` and `tls` calls in program-header file order
(the sequence `loadTlsPure`), then all `relocate` calls in
relocation-section entry order (the sequence `relocPure`), then all
`make_readonly` calls in program-header file order (the sequence
`relroPure`); the four segments are homogeneous in phase, so no callback of
an earlier phase occurs after one of a later phase. -/
theorem load_callback_order {σ : Type} (L : ElfLoader σ) (b : ElfBinary)
    (s s' : σ) (tr : List Event) (h : b.load L s = (tr, .ok s')) :
    tr = .allocate b.iter_loadable_headers ::
      ((loadTlsPure b.file.input b.file.phs).1 ++ (relocPure b.file).1 ++
        (relroPure b.file.phs).1)
    ∧ (∀ ev ∈ (loadTlsPure b.file.input b.file.phs).1, ev.phase = 1)
    ∧ (∀ ev ∈ (relocPure b.file).1, ev.phase = 2)
    ∧ (∀ ev ∈ (relroPure b.file.phs).1, ev.phase = 3) := by
  obtain ⟨hp, _⟩ := load_ok L b s s' tr h
  exact ⟨(pureLoad_none b tr hp).1, loadTlsPure_phase b.file.input b.file.phs,
    relocPure_phase b.file, relroPure_phase b.file.phs⟩

end Elf
namespace Elf

theorem raw_data_length (input : List Nat) (h : ProgramHeader)
    (hb : h.offset + h.file_size ≤ input.length) :
    (h.raw_data input).length = h.file_size := by
  simp [ProgramHeader.raw_data]
  omega

theorem Event.phase_ne_one_loadArgs (ev : Event) (h : ev.phase ≠ 1) :
    Event.loadArgs ev = none := by
  cases ev
  case load f b r => exact absurd rfl h
  all_goals rfl

theorem loadTlsPure_loadArgs (input : List Nat) (phs : List ProgramHeader)
    (hb : ∀ h ∈ phs, select_load h = true → h.offset + h.file_size ≤ input.length)
    (hok : (loadTlsPure input phs).2 = none) :
    (loadTlsPure input phs).1.filterMap Event.loadArgs =
      (phs.filter select_load).map (fun h => (h.virtual_addr, h.file_size)) := by
  induction phs with
  | nil => simp [loadTlsPure]
  | cons hd rest ih =>
    have hbrest : ∀ h ∈ rest, select_load h = true → h.offset + h.file_size ≤ input.length :=
      fun h hm hs => hb h (List.mem_cons_of_mem _ hm) hs
    cases hpt : hd.p_type with
    | error e => simp [loadTlsPure, hpt] at hok
    | ok t =>
      by_cases h1 : t = .Load
      · subst h1
        have hsel : select_load hd = true := by simp [select_load, hpt]
        have hlen : (hd.raw_data input).length = hd.file_size :=
          raw_data_length input hd (hb hd (List.mem_cons_self hd rest) hsel)
        simp only [loadTlsPure, hpt] at hok
        simp at hok
        simp [loadTlsPure, hpt, hsel, Event.loadArgs, hlen, ih hbrest hok]
      · by_cases h2 : t = .Tls
        · subst h2
          have hsel : select_load hd = false := by simp [select_load, hpt]
          simp only [loadTlsPure, hpt] at hok
          simp [h1] at hok
          simp [loadTlsPure, hpt, h1, hsel, Event.loadArgs, ih hbrest hok]
        · have hsel : select_load hd = false := by simp [select_load, hpt, h1]
          simp only [loadTlsPure, hpt, if_neg h1, if_neg h2] at hok
          simp [loadTlsPure, hpt, h1, h2, hsel, ih hbrest hok]

/-- C2: during a successful `binary.load(loader)` each `PT_LOAD` program
header gives rise to exactly one `load` callback, in file order, whose base
argument is that header's `p_vaddr` and whose byte-slice argument has length
`p_filesz`.  The in-bounds hypothesis reflects that a run touching a segment
outside the file region never completes in the original (Rust slice indexing
panics there). -/
theorem load_pt_load_calls {σ : Type} (L : ElfLoader σ) (b : ElfBinary)
    (s s' : σ) (tr : List Event)
    (hb : ∀ hh ∈ b.file.phs, select_load hh = true →
      hh.offset + hh.file_size ≤ b.file.input.length)
    (h : b.load L s = (tr, .ok s')) :
    tr.filterMap Event.loadArgs =
      b.iter_loadable_headers.map (fun hh => (hh.virtual_addr, hh.file_size)) := by
  obtain ⟨hp, _⟩ := load_ok L b s s' tr h
  obtain ⟨htr, hok2, _, _⟩ := pureLoad_none b tr hp
  subst htr
  have hB : (relocPure b.file).1.filterMap Event.loadArgs = [] := by
    rw [List.filterMap_eq_nil_iff]
    intro ev hev
    exact Event.phase_ne_one_loadArgs ev (by rw [relocPure_phase b.file ev hev]; decide)
  have hC : (relroPure b.file.phs).1.filterMap Event.loadArgs = [] := by
    rw [List.filterMap_eq_nil_iff]
    intro ev hev
    exact Event.phase_ne_one_loadArgs ev (by rw [relroPure_phase b.file.phs ev hev]; decide)
  simp only [List.filterMap_cons, Event.loadArgs, List.filterMap_append, hB, hC,
    List.append_nil]
  exact loadTlsPure_loadArgs b.file.input b.file.phs hb hok2

end Elf
namespace Elf

/-- C3: `load` rejects the binary before invoking any loader callback, with
`UnsupportedElfVersion` when the version is not `Current`, then
`UnsupportedEndianness` when the byte order is not little-endian, then
`UnsupportedAbi` when the OS/ABI is neither SystemV nor Linux, then
`UnsupportedElfType` when the file type is neither `ET_EXEC` nor `ET_DYN`
(the checks run in this order, so the first failing one names the error);
when none of the four conditions holds the eligibility check passes. -/
theorem is_loadable_eligibility {σ : Type} (L : ElfLoader σ) (s : σ) (b : ElfBinary) :
    (∀ e, b.is_loadable = .error e → b.load L s = ([], .error e))
    ∧ (b.is_loadable = .error .UnsupportedElfVersion ↔ b.file.version ≠ .Current)
    ∧ (b.is_loadable = .error .UnsupportedEndianness ↔
        b.file.version = .Current ∧ b.file.data ≠ .LittleEndian)
    ∧ (b.is_loadable = .error .UnsupportedAbi ↔
        b.file.version = .Current ∧ b.file.data = .LittleEndian ∧
          ¬(b.file.os_abi = .SystemV ∨ b.file.os_abi = .Linux))
    ∧ (b.is_loadable = .error .UnsupportedElfType ↔
        b.file.version = .Current ∧ b.file.data = .LittleEndian ∧
          (b.file.os_abi = .SystemV ∨ b.file.os_abi = .Linux) ∧
          ¬(b.file.elftype = .Executable ∨ b.file.elftype = .SharedObject))
    ∧ (b.is_loadable = .ok () ↔
        b.file.version = .Current ∧ b.file.data = .LittleEndian ∧
          (b.file.os_abi = .SystemV ∨ b.file.os_abi = .Linux) ∧
          (b.file.elftype = .Executable ∨ b.file.elftype = .SharedObject)) := by
  refine ⟨?_, ?_⟩
  · intro e he
    unfold ElfBinary.load
    simp [he]
  · unfold ElfBinary.is_loadable
    split_ifs with h1 h2 h3 h4 <;> simp_all

/-- C5: `maybe_relocate` uses the `.rela.dyn` section when it exists, else
the `.rel.dyn` section when that exists, and otherwise skips the phase
without error and without any `relocate` callback; when a section with a
supported entry shape is used, a successful run issues exactly one
`relocate` callback per entry, in the order the entries appear. -/
theorem maybe_relocate_section_choice {σ : Type} (L : ElfLoader σ) (s : σ) (b : ElfBinary) :
    (b.file.find_section_by_name ".rela.dyn" = none →
      b.file.find_section_by_name ".rel.dyn" = none →
      b.maybe_relocate L s = ([], .ok s))
    ∧ (∀ sec, b.file.find_section_by_name ".rela.dyn" = some sec →
        relocationSection b.file = some sec)
    ∧ (b.file.find_section_by_name ".rela.dyn" = none →
        relocationSection b.file = b.file.find_section_by_name ".rel.dyn")
    ∧ (∀ sec d ents s' tr, relocationSection b.file = some sec →
        sec.data = .ok d → sectionEntries d = some ents →
        b.maybe_relocate L s = (tr, .ok s') →
        tr = ents.map Event.relocate) := by
  refine ⟨?_, ?_, ?_, ?_⟩
  · intro h1 h2
    unfold ElfBinary.maybe_relocate
    simp [relocationSection, h1, h2]
  · intro sec h1
    simp [relocationSection, h1]
  · intro h1
    simp [relocationSection, h1, Option.orElse]
  · intro sec d ents s' tr hsec hd hents h
    unfold ElfBinary.maybe_relocate at h
    simp only [hsec, hd, hents] at h
    obtain ⟨he, _⟩ := relocLoop_ok L ents s s' tr h
    exact he

/-- C10: `for_each_symbol` returns `SymbolTableNotFound` both when no
`.symtab` section exists and when the `.symtab` section's data is neither a
64-bit nor a 32-bit symbol table (in particular it does not return
`UnsupportedSectionData` there); on success the callback receives the
table's entries once each, in table order. -/
theorem for_each_symbol_spec (b : ElfBinary) :
    (b.file.find_section_by_name ".symtab" = none →
      b.for_each_symbol = .error .SymbolTableNotFound)
    ∧ (∀ sec d, b.file.find_section_by_name ".symtab" = some sec →
        sec.data = .ok d →
        (∀ es, d ≠ .SymbolTable64 es) → (∀ es, d ≠ .SymbolTable32 es) →
        b.for_each_symbol = .error .SymbolTableNotFound ∧
          b.for_each_symbol ≠ .error .UnsupportedSectionData)
    ∧ (∀ sec es, b.file.find_section_by_name ".symtab" = some sec →
        sec.data = .ok (.SymbolTable64 es) ∨ sec.data = .ok (.SymbolTable32 es) →
        b.for_each_symbol = .ok es) := by
  refine ⟨?_, ?_, ?_⟩
  · intro h1
    unfold ElfBinary.for_each_symbol
    simp [h1]
  · intro sec d h1 h2 h64 h32
    have : b.for_each_symbol = .error .SymbolTableNotFound := by
      cases d
      case SymbolTable64 es => exact absurd rfl (h64 es)
      case SymbolTable32 es => exact absurd rfl (h32 es)
      all_goals unfold ElfBinary.for_each_symbol
      all_goals simp [h1, h2]
    exact ⟨this, by simp [this]⟩
  · intro sec es h1 h2
    unfold ElfBinary.for_each_symbol
    rcases h2 with h2 | h2 <;> simp [h1, h2]

end Elf
namespace Elf

/-- C8: when a run of `load` fails with error `e`, the callbacks issued form
an initial segment of the canonical sequence `pureLoad` (so nothing is
retried, re-issued or rolled back and no callback follows the failure), and
either the last callback issued is the failing one and returned exactly `e`
(after every earlier callback succeeded, as `replay` certifies), or every
issued callback succeeded and the run coincides with the loader-independent
`pureLoad` run, whose internal parse step produced exactly `e`. -/
theorem load_error_propagation {σ : Type} (L : ElfLoader σ) (b : ElfBinary)
    (s : σ) (tr : List Event) (e : ElfLoaderErr)
    (h : b.load L s = (tr, .error e)) :
    TraceExtends (pureLoad b).1 tr
    ∧ ((∃ tr₀ ev s', tr = tr₀ ++ [ev] ∧ replay L s tr₀ = .ok s' ∧
          dispatch L s' ev = .error e)
       ∨ ((∃ s', replay L s tr = .ok s') ∧ pureLoad b = (tr, some e))) := by
  constructor
  · obtain ⟨r, hr⟩ := load_le L b s
    rw [h] at hr
    exact ⟨r, hr⟩
  · exact load_error L b s tr e h

/-- C6: evaluation of the x86 relocation table at the failing inputs.  The
i386 System V ABI assigns number 1 to `R_386_32` and number 2 to
`R_386_PC32`; `RelocationTypes::from` in `src/arch/x86.rs` returns them
swapped (its own enum declaration order, which fixes the `repr(u32)`
discriminants, lists `R_386_32` first and `R_386_PC32` second, matching the
ABI and contradicting the table). -/
theorem x86_from_one_two_swapped :
    X86.RelocationTypes.fromRaw 1 = .R_386_PC32 ∧
    X86.RelocationTypes.fromRaw 2 = .R_386_32 ∧
    X86.RelocationTypes.fromRaw 1 ≠ .R_386_32 ∧
    X86.RelocationTypes.fromRaw 2 ≠ .R_386_PC32 := by
  refine ⟨rfl, rfl, ?_, ?_⟩ <;> decide

end Elf
namespace Elf

/-- Modelled from the spec (the wording of claim C4): a dynamic-segment
summary that records the relocation-table address from a `DT_RELA` *or*
`DT_REL` entry, its size from a `DT_RELASZ` *or* `DT_RELSZ` entry, and the
flags-1 mask from `DT_FLAGS_1` (for 32-bit segments also from `DT_FLAGS`),
skipping every other tag.  `flagsAlso` is true for 32-bit segments. -/
def claimDynSummary (flagsAlso : Bool) (es : List DynEntry) : DynamicInfo :=
  es.foldl
    (fun d e =>
      match e.tag with
      | .ok .Rela => { d with rela := e.un }
      | .ok .Rel => { d with rela := e.un }
      | .ok .RelaSize => { d with rela_size := e.un }
      | .ok .RelSize => { d with rela_size := e.un }
      | .ok .Flags1 => { d with flags1 := e.un }
      | .ok .Flags => if flagsAlso then { d with flags1 := e.un } else d
      | _ => d)
    ⟨0, 0, 0⟩

/-- What the 64-bit dynamic walk actually records: address from `DT_RELA`
only, size from `DT_RELASZ` only, flags from `DT_FLAGS_1`; the last entry of
each tag wins and every other tag is skipped. -/
def dyn64Summary (es : List DynEntry) : DynamicInfo :=
  es.foldl
    (fun d e =>
      match e.tag with
      | .ok .Rela => { d with rela := e.un }
      | .ok .RelaSize => { d with rela_size := e.un }
      | .ok .Flags1 => { d with flags1 := e.un }
      | _ => d)
    ⟨0, 0, 0⟩

/-- What the 32-bit dynamic walk actually records: as `dyn64Summary` but the
flags come from `DT_FLAGS`, not `DT_FLAGS_1`. -/
def dyn32Summary (es : List DynEntry) : DynamicInfo :=
  es.foldl
    (fun d e =>
      match e.tag with
      | .ok .Rela => { d with rela := e.un }
      | .ok .RelaSize => { d with rela_size := e.un }
      | .ok .Flags => { d with flags1 := e.un }
      | _ => d)
    ⟨0, 0, 0⟩

/-- A 64-bit dynamic segment whose relocation table is advertised with
`DT_REL`/`DT_RELSZ`, as a REL-style binary would. -/
def relTaggedEntries : List DynEntry := [⟨.ok .Rel, 0x100⟩, ⟨.ok .RelSize, 0x18⟩]

/-- A `PT_DYNAMIC` program header carrying `relTaggedEntries`. -/
def relTaggedHeader : ProgramHeader :=
  { p_type := .ok .Dynamic, flags := 4, virtual_addr := 0x3000, offset := 0,
    file_size := 0x20, mem_size := 0x20, align := 8,
    seg_data := .ok (.Dynamic64 relTaggedEntries) }

theorem dynWalk64_records (es : List DynEntry)
    (hok : ∀ e ∈ es, e.tag.isOk) :
    ∀ d : DynamicInfo,
      dynWalk64 es d.flags1 d.rela d.rela_size =
        .ok ((es.foldl
          (fun d e =>
            match e.tag with
            | .ok .Rela => { d with rela := e.un }
            | .ok .RelaSize => { d with rela_size := e.un }
            | .ok .Flags1 => { d with flags1 := e.un }
            | _ => d)
          d).flags1,
          (es.foldl
          (fun d e =>
            match e.tag with
            | .ok .Rela => { d with rela := e.un }
            | .ok .RelaSize => { d with rela_size := e.un }
            | .ok .Flags1 => { d with flags1 := e.un }
            | _ => d)
          d).rela,
          (es.foldl
          (fun d e =>
            match e.tag with
            | .ok .Rela => { d with rela := e.un }
            | .ok .RelaSize => { d with rela_size := e.un }
            | .ok .Flags1 => { d with flags1 := e.un }
            | _ => d)
          d).rela_size) := by
  induction es with
  | nil => intro d; rfl
  | cons e rest ih =>
    intro d
    have hokrest : ∀ x ∈ rest, x.tag.isOk :=
      fun x hx => hok x (List.mem_cons_of_mem _ hx)
    cases htag : e.tag with
    | error err =>
      have := hok e (List.mem_cons_self e rest)
      rw [htag] at this
      cases this
    | ok t =>
      cases t with
      | Needed => simpa [dynWalk64, htag] using ih hokrest d
      | Rela =>
        have := ih hokrest { d with rela := e.un }
        simpa [dynWalk64, htag] using this
      | RelaSize =>
        have := ih hokrest { d with rela_size := e.un }
        simpa [dynWalk64, htag] using this
      | Flags1 =>
        have := ih hokrest { d with flags1 := e.un }
        simpa [dynWalk64, htag] using this
      | Rel => simpa [dynWalk64, htag] using ih hokrest d
      | RelSize => simpa [dynWalk64, htag] using ih hokrest d
      | Flags => simpa [dynWalk64, htag] using ih hokrest d
      | Other n => simpa [dynWalk64, htag] using ih hokrest d

end Elf
namespace Elf

theorem dynWalk32_records (es : List DynEntry)
    (hok : ∀ e ∈ es, e.tag.isOk) :
    ∀ d : DynamicInfo,
      dynWalk32 es d.flags1 d.rela d.rela_size =
        .ok ((es.foldl
          (fun d e =>
            match e.tag with
            | .ok .Rela => { d with rela := e.un }
            | .ok .RelaSize => { d with rela_size := e.un }
            | .ok .Flags => { d with flags1 := e.un }
            | _ => d)
          d).flags1,
          (es.foldl
          (fun d e =>
            match e.tag with
            | .ok .Rela => { d with rela := e.un }
            | .ok .RelaSize => { d with rela_size := e.un }
            | .ok .Flags => { d with flags1 := e.un }
            | _ => d)
          d).rela,
          (es.foldl
          (fun d e =>
            match e.tag with
            | .ok .Rela => { d with rela := e.un }
            | .ok .RelaSize => { d with rela_size := e.un }
            | .ok .Flags => { d with flags1 := e.un }
            | _ => d)
          d).rela_size) := by
  induction es with
  | nil => intro d; rfl
  | cons e rest ih =>
    intro d
    have hokrest : ∀ x ∈ rest, x.tag.isOk :=
      fun x hx => hok x (List.mem_cons_of_mem _ hx)
    cases htag : e.tag with
    | error err =>
      have := hok e (List.mem_cons_self e rest)
      rw [htag] at this
      cases this
    | ok t =>
      cases t with
      | Needed => simpa [dynWalk32, htag] using ih hokrest d
      | Rela =>
        have := ih hokrest { d with rela := e.un }
        simpa [dynWalk32, htag] using this
      | RelaSize =>
        have := ih hokrest { d with rela_size := e.un }
        simpa [dynWalk32, htag] using this
      | Flags =>
        have := ih hokrest { d with flags1 := e.un }
        simpa [dynWalk32, htag] using this
      | Rel => simpa [dynWalk32, htag] using ih hokrest d
      | RelSize => simpa [dynWalk32, htag] using ih hokrest d
      | Flags1 => simpa [dynWalk32, htag] using ih hokrest d
      | Other n => simpa [dynWalk32, htag] using ih hokrest d

theorem parse_dynamic_dyn64 (hdr : ProgramHeader) (es : List DynEntry)
    (hseg : hdr.seg_data = .ok (.Dynamic64 es)) (hok : ∀ e ∈ es, e.tag.isOk) :
    parse_dynamic hdr = .ok (some (dyn64Summary es)) := by
  unfold parse_dynamic
  simp only [hseg]
  have h := dynWalk64_records es hok ⟨0, 0, 0⟩
  simp only at h
  rw [h]
  simp [dyn64Summary]

theorem parse_dynamic_dyn32 (hdr : ProgramHeader) (es : List DynEntry)
    (hseg : hdr.seg_data = .ok (.Dynamic32 es)) (hok : ∀ e ∈ es, e.tag.isOk) :
    parse_dynamic hdr = .ok (some (dyn32Summary es)) := by
  unfold parse_dynamic
  simp only [hseg]
  have h := dynWalk32_records es hok ⟨0, 0, 0⟩
  simp only at h
  rw [h]
  simp [dyn32Summary]

/-- C4 (amended): the dynamic-segment parser records exactly three pieces of
data: the relocation-table address from `DT_RELA` entries only (`DT_REL` is
skipped like every other unrecognized tag), the size from `DT_RELASZ` only
(`DT_RELSZ` is skipped), and the flags-1 mask from `DT_FLAGS_1` for 64-bit
segments and from `DT_FLAGS` (widened to 64 bits) for 32-bit segments; on
each walk the last entry of a recorded tag wins and every other valid
dynamic tag is skipped without error. -/
theorem parse_dynamic_records (hdr : ProgramHeader) :
    (∀ es, hdr.seg_data = .ok (.Dynamic64 es) → (∀ e ∈ es, e.tag.isOk) →
      parse_dynamic hdr = .ok (some (dyn64Summary es)))
    ∧ (∀ es, hdr.seg_data = .ok (.Dynamic32 es) → (∀ e ∈ es, e.tag.isOk) →
      parse_dynamic hdr = .ok (some (dyn32Summary es))) :=
  ⟨fun es hseg hok => parse_dynamic_dyn64 hdr es hseg hok,
   fun es hseg hok => parse_dynamic_dyn32 hdr es hseg hok⟩

/-- C4 counterexample: a 64-bit dynamic segment advertising its relocation
table with `DT_REL`/`DT_RELSZ`.  The claim says the address and size are
recorded from those entries (yielding `rela = 0x100`, `rela_size = 0x18`);
`parse_dynamic` skips them and leaves both fields 0. -/
theorem parse_dynamic_counterexample :
    parse_dynamic relTaggedHeader = .ok (some ⟨0, 0, 0⟩) ∧
    claimDynSummary false relTaggedEntries = ⟨0, 0x100, 0x18⟩ ∧
    parse_dynamic relTaggedHeader ≠ .ok (some (claimDynSummary false relTaggedEntries)) := by
  refine ⟨rfl, rfl, ?_⟩
  decide

end Elf
namespace Elf

/-- Modelled from the spec (the wording of claim C7): the `DT_FLAGS_1` mask
of a dynamic-entry list — the value of its last `DT_FLAGS_1` entry, 0 when
there is none. -/
def dtFlags1Mask (es : List DynEntry) : Nat :=
  es.foldl (fun m e => match e.tag with | .ok .Flags1 => e.un | _ => m) 0

/-- The `DT_FLAGS` mask of a dynamic-entry list — the value of its last
`DT_FLAGS` entry, 0 when there is none. -/
def dtFlagsMask (es : List DynEntry) : Nat :=
  es.foldl (fun m e => match e.tag with | .ok .Flags => e.un | _ => m) 0

theorem dyn64Summary_flags1 (es : List DynEntry) :
    ∀ d : DynamicInfo,
      (es.foldl
        (fun d e =>
          match e.tag with
          | .ok .Rela => { d with rela := e.un }
          | .ok .RelaSize => { d with rela_size := e.un }
          | .ok .Flags1 => { d with flags1 := e.un }
          | _ => d)
        d).flags1 =
      es.foldl (fun m e => match e.tag with | .ok .Flags1 => e.un | _ => m) d.flags1 := by
  induction es with
  | nil => intro d; rfl
  | cons e rest ih =>
    intro d
    cases htag : e.tag with
    | error err => simp [htag, ih]
    | ok t => cases t <;> simp [htag, ih]

theorem dyn32Summary_flags1 (es : List DynEntry) :
    ∀ d : DynamicInfo,
      (es.foldl
        (fun d e =>
          match e.tag with
          | .ok .Rela => { d with rela := e.un }
          | .ok .RelaSize => { d with rela_size := e.un }
          | .ok .Flags => { d with flags1 := e.un }
          | _ => d)
        d).flags1 =
      es.foldl (fun m e => match e.tag with | .ok .Flags => e.un | _ => m) d.flags1 := by
  induction es with
  | nil => intro d; rfl
  | cons e rest ih =>
    intro d
    cases htag : e.tag with
    | error err => simp [htag, ih]
    | ok t => cases t <;> simp [htag, ih]

theorem findDynamicHeader_some (phs : List ProgramHeader) (h : ProgramHeader)
    (hf : findDynamicHeader phs = .ok (some h)) :
    h ∈ phs ∧ h.p_type = .ok .Dynamic := by
  induction phs with
  | nil => simp [findDynamicHeader] at hf
  | cons hd rest ih =>
    simp only [findDynamicHeader] at hf
    cases hpt : hd.p_type with
    | error e => rw [hpt] at hf; cases hf
    | ok t =>
      rw [hpt] at hf
      simp only at hf
      by_cases h1 : t = .Dynamic
      · subst h1
        rw [if_pos rfl] at hf
        cases hf
        exact ⟨by simp, hpt⟩
      · rw [if_neg h1] at hf
        obtain ⟨hm, hp⟩ := ih hf
        exact ⟨List.mem_cons_of_mem _ hm, hp⟩

/-- A 32-bit dynamic segment whose `DT_FLAGS_1` entry clears every bit while
its `DT_FLAGS` entry carries the `DF_1_PIE` bit pattern. -/
def flagsTaggedEntries : List DynEntry := [⟨.ok .Flags1, 0⟩, ⟨.ok .Flags, 0x08000000⟩]

/-- A `PT_DYNAMIC` program header carrying `flagsTaggedEntries`. -/
def flagsTaggedHeader : ProgramHeader :=
  { p_type := .ok .Dynamic, flags := 4, virtual_addr := 0x2000, offset := 0,
    file_size := 0x10, mem_size := 0x10, align := 4,
    seg_data := .ok (.Dynamic32 flagsTaggedEntries) }

/-- A well-formed 32-bit ELF view whose only program header is
`flagsTaggedHeader`. -/
def pie32File : ElfFile :=
  { version := .Current, data := .LittleEndian, os_abi := .SystemV,
    elftype := .SharedObject, entry_point := 0, input := [],
    phs := [flagsTaggedHeader], sections := [] }

/-- C7 counterexample: on a 32-bit binary the `flags1` field is recorded
from `DT_FLAGS`, not `DT_FLAGS_1`: construction yields `flags1 =
0x08000000` and `is_pie` true although the binary's `DT_FLAGS_1` mask is 0,
so the flags1 tested is not the `DT_FLAGS_1` mask. -/
theorem is_pie_counterexample :
    ElfBinary.new pie32File = .ok ⟨pie32File, some ⟨0x08000000, 0, 0⟩⟩ ∧
    (ElfBinary.mk pie32File (some ⟨0x08000000, 0, 0⟩)).is_pie = true ∧
    dtFlags1Mask flagsTaggedEntries = 0 ∧
    (⟨0x08000000, 0, 0⟩ : DynamicInfo).flags1 ≠ dtFlags1Mask flagsTaggedEntries := by
  refine ⟨?_, ?_, ?_, ?_⟩ <;> decide

/-- C7 (amended): `is_pie()` is true iff the `DynamicInfo` is present and
its `flags1` field contains the `DF_1_PIE` bit; it is false for every
binary without a `PT_DYNAMIC` program header; and the `flags1` tested is
the mask recorded at construction — the `DT_FLAGS_1` mask for a 64-bit
dynamic segment, the `DT_FLAGS` mask for a 32-bit one. -/
theorem is_pie_spec (f : ElfFile) (b : ElfBinary) :
    (b.is_pie = true ↔ ∃ d, b.dynamic = some d ∧
      DynamicFlags1.contains d.flags1 FLAG_1_PIE = true)
    ∧ (ElfBinary.new f = .ok b → (∀ h ∈ f.phs, h.p_type ≠ .ok .Dynamic) →
        b.dynamic = none ∧ b.is_pie = false)
    ∧ (∀ hdr es d, hdr.seg_data = .ok (.Dynamic64 es) → (∀ e ∈ es, e.tag.isOk) →
        parse_dynamic hdr = .ok (some d) → d.flags1 = dtFlags1Mask es)
    ∧ (∀ hdr es d, hdr.seg_data = .ok (.Dynamic32 es) → (∀ e ∈ es, e.tag.isOk) →
        parse_dynamic hdr = .ok (some d) → d.flags1 = dtFlagsMask es) := by
  refine ⟨?_, ?_, ?_, ?_⟩
  · cases hdyn : b.dynamic with
    | none => simp [ElfBinary.is_pie, hdyn]
    | some d => simp [ElfBinary.is_pie, hdyn]
  · intro hnew hnodyn
    unfold ElfBinary.new at hnew
    cases hf : findDynamicHeader f.phs with
    | error e => rw [hf] at hnew; cases hnew
    | ok o =>
      cases o with
      | none =>
        rw [hf] at hnew
        cases hnew
        exact ⟨rfl, rfl⟩
      | some h =>
        obtain ⟨hm, hp⟩ := findDynamicHeader_some f.phs h hf
        exact absurd hp (hnodyn h hm)
  · intro hdr es d hseg hok hparse
    rw [parse_dynamic_dyn64 hdr es hseg hok] at hparse
    cases hparse
    simpa [dyn64Summary, dtFlags1Mask] using dyn64Summary_flags1 es ⟨0, 0, 0⟩
  · intro hdr es d hseg hok hparse
    rw [parse_dynamic_dyn32 hdr es hseg hok] at hparse
    cases hparse
    simpa [dyn32Summary, dtFlagsMask] using dyn32Summary_flags1 es ⟨0, 0, 0⟩

end Elf
namespace Elf.RiscV

/-- The raw number carried by an `Unknown` variant; `none` for every named
variant. -/
def RelocationTypes.unknownRaw : RelocationTypes → Option Nat
  | .Unknown n => some n
  | _ => none

/-- The relocation numbers the RISC-V table assigns a name: 0–11 and 16–56.
The ABI's numeric gap 12–15, and everything past 56, are unassigned. -/
def recognized (n : Nat) : Bool := n ≤ 11 ∨ (16 ≤ n ∧ n ≤ 56)

end Elf.RiscV

namespace Elf.Arm

/-- The raw number carried by an `Unknown` variant; `none` for every named
variant. -/
def RelocationTypes.unknownRaw : RelocationTypes → Option Nat
  | .Unknown n => some n
  | _ => none

/-- The relocation numbers the ARM32 table assigns a name: 0–135. -/
def recognized (n : Nat) : Bool := n ≤ 135

end Elf.Arm

namespace Elf

/-- The raw number carried by `TypeRela64.Unknown`; `none` for every named
variant. -/
def TypeRela64.unknownRaw : TypeRela64 → Option Nat
  | .Unknown n => some n
  | _ => none

/-- The relocation numbers the x86_64 table assigns a name: 0–23. -/
def rela64Recognized (n : Nat) : Bool := n ≤ 23

set_option maxHeartbeats 2000000 in
/-- C9: each relocation-number table is a total deterministic function on
the raw numbers — the embedding is a Lean function, so totality and
determinism (`from` applied twice to the same number yields the same
variant) hold by construction — and the single equation below pins the rest
down for every `n`: a recognized number yields a named variant (no raw
payload), and every unrecognized number `n` yields `Unknown n`, preserving
the raw number. -/
theorem reloc_from_total (n : Nat) :
    (RiscV.RelocationTypes.unknownRaw (RiscV.RelocationTypes.fromRaw n) =
      if RiscV.recognized n then none else some n)
    ∧ (Arm.RelocationTypes.unknownRaw (Arm.RelocationTypes.fromRaw n) =
      if Arm.recognized n then none else some n)
    ∧ (TypeRela64.unknownRaw (TypeRela64.fromRaw n) =
      if rela64Recognized n then none else some n) := by
  refine ⟨?_, ?_, ?_⟩
  · rcases Nat.lt_or_ge n 57 with h | h
    · interval_cases n <;> decide
    · have h1 : RiscV.RelocationTypes.fromRaw n = .Unknown n := by
        rw [RiscV.RelocationTypes.fromRaw.eq_def]
        split
        all_goals first | rfl | omega
      have h2 : RiscV.recognized n = false := by
        simp only [RiscV.recognized, decide_eq_false_iff_not]
        omega
      rw [h1, h2]
      rfl
  · rcases Nat.lt_or_ge n 136 with h | h
    · interval_cases n <;> decide
    · have h1 : Arm.RelocationTypes.fromRaw n = .Unknown n := by
        rw [Arm.RelocationTypes.fromRaw.eq_def]
        split
        all_goals first | rfl | omega
      have h2 : Arm.recognized n = false := by
        simp only [Arm.recognized, decide_eq_false_iff_not]
        omega
      rw [h1, h2]
      rfl
  · rcases Nat.lt_or_ge n 24 with h | h
    · interval_cases n <;> decide
    · have h1 : TypeRela64.fromRaw n = .Unknown n := by
        rw [TypeRela64.fromRaw.eq_def]
        split
        all_goals first | rfl | omega
      have h2 : rela64Recognized n = false := by
        simp only [rela64Recognized, decide_eq_false_iff_not]
        omega
      rw [h1, h2]
      rfl

end Elf
namespace Elf

/-- A `PT_LOAD` header over bytes 2–5 of the example input. -/
def exLoadHeader : ProgramHeader :=
  { p_type := .ok .Load, flags := 5, virtual_addr := 0x1000, offset := 2,
    file_size := 4, mem_size := 8, align := 4, seg_data := .ok .OtherSeg }

/-- A `PT_TLS` header. -/
def exTlsHeader : ProgramHeader :=
  { p_type := .ok .Tls, flags := 4, virtual_addr := 0x2000, offset := 6,
    file_size := 2, mem_size := 4, align := 4, seg_data := .ok .OtherSeg }

/-- A `PT_DYNAMIC` header with a `DT_FLAGS_1`/`DT_RELA`/`DT_RELASZ` segment. -/
def exDynHeader : ProgramHeader :=
  { p_type := .ok .Dynamic, flags := 4, virtual_addr := 0x3000, offset := 0,
    file_size := 0x30, mem_size := 0x30, align := 8,
    seg_data := .ok (.Dynamic64
      [⟨.ok .Flags1, 0x08000000⟩, ⟨.ok .Rela, 0x400⟩, ⟨.ok .RelaSize, 0x18⟩]) }

/-- A `PT_GNU_RELRO` header. -/
def exRelroHeader : ProgramHeader :=
  { p_type := .ok .GnuRelro, flags := 4, virtual_addr := 0x1000, offset := 2,
    file_size := 4, mem_size := 4, align := 1, seg_data := .ok .OtherSeg }

/-- One 64-bit relocation record with addend. -/
def exRelaEntry : Rela64 := { r_offset := 0x1008, r_info := 8, r_addend := 0x400 }

/-- A `.rela.dyn` section holding `exRelaEntry`. -/
def exRelaSection : ElfSection :=
  { name := some ".rela.dyn", data := .ok (.Rela64Data [exRelaEntry]) }

/-- A `.symtab` section with two entries. -/
def exSymSection : ElfSection :=
  { name := some ".symtab", data := .ok (.SymbolTable64 [⟨0⟩, ⟨1⟩]) }

/-- A loadable little-endian SystemV shared object with one segment of each
interesting kind. -/
def exFile : ElfFile :=
  { version := .Current, data := .LittleEndian, os_abi := .SystemV,
    elftype := .SharedObject, entry_point := 0,
    input := [0, 1, 2, 3, 4, 5, 6, 7],
    phs := [exLoadHeader, exTlsHeader, exDynHeader, exRelroHeader],
    sections := [exRelaSection, exSymSection] }

/-- The `ElfBinary` that construction from `exFile` yields. -/
def exBinary : ElfBinary :=
  { file := exFile, dynamic := some ⟨0x08000000, 0x400, 0x18⟩ }

/-- The callback sequence of a fault-free run of `exBinary.load`. -/
def exTrace : List Event :=
  [.allocate [exLoadHeader],
   .load 5 0x1000 [2, 3, 4, 5],
   .tls 0x2000 2 4 4,
   .relocate (.Rela64 exRelaEntry),
   .make_readonly 0x1000 4]

/-- A loader that accepts everything but refuses every relocation. -/
def failLoader : ElfLoader Unit where
  allocate := fun _ _ => .ok ()
  load := fun _ _ _ _ => .ok ()
  relocate := fun _ _ => .error .UnsupportedRelocationEntry
  tls := fun _ _ _ _ _ => .ok ()
  make_readonly := fun _ _ _ => .ok ()

/-- The callback sequence `exBinary.load failLoader` issues before failing. -/
def exFailTrace : List Event :=
  [.allocate [exLoadHeader],
   .load 5 0x1000 [2, 3, 4, 5],
   .tls 0x2000 2 4 4,
   .relocate (.Rela64 exRelaEntry)]

/-- Construction from `exFile` indeed yields `exBinary`. -/
theorem exBinary_new : ElfBinary.new exFile = .ok exBinary := by decide

/-- Witness for C1: the concrete run of `exBinary.load okLoader`. -/
theorem load_callback_order_witness :
    exTrace = .allocate exBinary.iter_loadable_headers ::
      ((loadTlsPure exBinary.file.input exBinary.file.phs).1 ++
        (relocPure exBinary.file).1 ++ (relroPure exBinary.file.phs).1)
    ∧ (∀ ev ∈ (loadTlsPure exBinary.file.input exBinary.file.phs).1, ev.phase = 1)
    ∧ (∀ ev ∈ (relocPure exBinary.file).1, ev.phase = 2)
    ∧ (∀ ev ∈ (relroPure exBinary.file.phs).1, ev.phase = 3) :=
  load_callback_order okLoader exBinary () () exTrace (by decide)

/-- Witness for C2: the load events of the concrete run match the `PT_LOAD`
headers. -/
theorem load_pt_load_calls_witness :
    exTrace.filterMap Event.loadArgs =
      exBinary.iter_loadable_headers.map (fun hh => (hh.virtual_addr, hh.file_size)) :=
  load_pt_load_calls okLoader exBinary () () exTrace (by decide) (by decide)

/-- Witness for C8: the run of `exBinary.load failLoader` fails at the
relocation callback with the callback's own error and issues nothing
afterwards. -/
theorem load_error_propagation_witness :
    TraceExtends (pureLoad exBinary).1 exFailTrace
    ∧ ((∃ tr₀ ev s', exFailTrace = tr₀ ++ [ev] ∧ replay failLoader () tr₀ = .ok s' ∧
          dispatch failLoader s' ev = .error .UnsupportedRelocationEntry)
       ∨ ((∃ s', replay failLoader () exFailTrace = .ok s') ∧
          pureLoad exBinary = (exFailTrace, some .UnsupportedRelocationEntry))) :=
  load_error_propagation failLoader exBinary () exFailTrace
    .UnsupportedRelocationEntry (by decide)

end Elf
